import Mathlib

/-!
Verification of the Gmail monitoring system's core pipeline
(`email_processor.py`) against its natural-language specification.

The Python source is shallowly embedded: pure string/number manipulation is
translated directly; Python `float` arithmetic on the small decimal constants
of this program is modelled exactly with `ℚ`; calls into external libraries
(the `re` regex engine, the Gmail API, `requests.post`, SQLite) are modelled
as explicit oracle parameters describing the outcome of each call, while all
the program's own logic around them is translated faithfully.  A raised
Python exception is modelled with `Except`/`Option`.
-/

namespace EmailProc

/- Batteries marks the `Rat` field operations `@[irreducible]`; make them
reducible again inside this development so that concrete rational
computations (confidence scores, means, rounding) evaluate by kernel
reduction, exactly as the embedded program computes them. -/
attribute [local semireducible] Rat.add Rat.mul Rat.inv Rat.sub Rat.ofScientific

/-! ## Python string helpers -/

/-- Decision of `needle in haystack` on lists of characters
(Python's substring containment). -/
def subAux (n : List Char) : List Char → Bool
  | [] => n.isEmpty
  | c :: rest => n.isPrefixOf (c :: rest) || subAux n rest

/-- Python `needle in haystack` for strings. -/
def strContains (hay needle : String) : Bool :=
  subAux needle.toList hay.toList

/-- Python `str.strip()`: remove leading and trailing whitespace. -/
def pyStrip (s : String) : String :=
  String.mk ((s.toList.dropWhile Char.isWhitespace).reverse.dropWhile
    Char.isWhitespace).reverse

/-- Python `str.lower()` (per-character lowering; the program only lowers
ASCII and Japanese text, where this agrees with Python). -/
def pyLower (s : String) : String :=
  String.mk (s.toList.map Char.toLower)

/-- Python `min` on two rationals, written out so that it evaluates by
kernel reduction (`min(a, b)`). -/
def ratMin (a b : ℚ) : ℚ :=
  if a ≤ b then a else b

/-- Python `str.startswith` (code-point prefix). -/
def pyStartsWith (s p : String) : Bool :=
  p.toList.isPrefixOf s.toList

/-- Python `str.endswith` (code-point suffix). -/
def pyEndsWith (s p : String) : Bool :=
  p.toList.reverse.isPrefixOf s.toList.reverse

/-- Number of occurrences of a character in a string
(Python `len(re.findall(r'c', text))` for a single-character class). -/
def countChar (s : String) (c : Char) : ℕ :=
  (s.toList.filter (fun x => x = c)).length

/-- All decimal digits of a string, in order
(Python `re.sub(r'[^\d]', '', value)`). -/
def digitsOf (s : String) : List Char :=
  s.toList.filter Char.isDigit

/-- The first maximal run of decimal digits in a string
(Python `re.findall(r'\d+', value)[0]`), or `none` when the string holds no
digit. -/
def firstDigitRun (s : String) : Option (List Char) :=
  let l := s.toList.dropWhile (fun c => !c.isDigit)
  match l with
  | [] => none
  | c :: rest => some ((c :: rest).takeWhile Char.isDigit)

/-- Numeric value of a list of decimal digits (Python `int` on a digit
string). -/
def natOfDigits (l : List Char) : ℕ :=
  l.foldl (fun n c => 10 * n + (c.toNat - '0'.toNat)) 0

/-! ## `FieldValidator` (email_processor.py lines 66-136) -/

/-- Character class `[a-zA-Z0-9._%+-]` (local part of the e-mail regex). -/
def emailLocalChar (c : Char) : Bool :=
  c.isAlpha || c.isDigit || c = '.' || c = '_' || c = '%' || c = '+' || c = '-'

/-- Character class `[a-zA-Z0-9.-]` (domain part of the e-mail regex). -/
def emailDomainChar (c : Char) : Bool :=
  c.isAlpha || c.isDigit || c = '.' || c = '-'

/-- ASCII letter (`[a-zA-Z]`). -/
def isAsciiAlpha (c : Char) : Bool :=
  c.isAlpha

/-- Decision of the anchored regex
`^[a-zA-Z0-9._%+-]+@[a-zA-Z0-9.-]+\.[a-zA-Z]{2,}$`: a nonempty local part,
one `@`, then a domain that ends in a dot followed by at least two letters.
Because neither character class contains `@`, the split at `@` is unique, and
because the trailing letters contain no dot, the dot used by the regex must
be the last dot of the domain part. -/
def emailRegexMatch (s : String) : Bool :=
  match s.toList.splitOn '@' with
  | [localPart, domainPart] =>
    !localPart.isEmpty && localPart.all emailLocalChar &&
      domainPart.all emailDomainChar &&
      (let parts := domainPart.splitOn '.'
       match parts.getLast? with
       | some tld =>
         decide (2 ≤ parts.length) && decide (2 ≤ tld.length) &&
           tld.all isAsciiAlpha &&
           -- the domain text in front of the last dot must be nonempty
           (decide (3 ≤ parts.length) || !(parts.headD []).isEmpty)
       | none => false)
  | _ => false

/-- `FieldValidator.validate_email` (lines 69-75): match the strict address
regex against the stripped value; on success return it lowercased. -/
def validate_email (value : String) : Bool × String :=
  if emailRegexMatch (pyStrip value) then
    (true, pyLower (pyStrip value))
  else
    (false, value)

/-- `FieldValidator.validate_phone` (lines 77-97): keep digits, hyphens,
parentheses and whitespace; accept 10 digits (formatted 2-4-4) or 11 digits
starting with `0` (formatted 3-4-4). -/
def validate_phone (value : String) : Bool × String :=
  let cleaned := String.mk (value.toList.filter
    (fun c => c.isDigit || c = '-' || c = '(' || c = ')' || c.isWhitespace))
  let digits := digitsOf value
  if digits.length = 11 ∧ digits.head? = some '0' then
    (true, String.mk (digits.take 3) ++ "-" ++ String.mk ((digits.drop 3).take 4)
      ++ "-" ++ String.mk (digits.drop 7))
  else if digits.length = 10 then
    (true, String.mk (digits.take 2) ++ "-" ++ String.mk ((digits.drop 2).take 4)
      ++ "-" ++ String.mk (digits.drop 6))
  else
    (false, cleaned)

/-- `FieldValidator.validate_postal_code` (lines 99-106): exactly 7 digits,
reformatted `NNN-NNNN`. -/
def validate_postal_code (value : String) : Bool × String :=
  let digits := digitsOf value
  if digits.length = 7 then
    (true, String.mk (digits.take 3) ++ "-" ++ String.mk (digits.drop 3))
  else
    (false, value)

/-- `FieldValidator.validate_age` (lines 108-116): take the first run of
digits; accept values `0 ≤ age ≤ 120` and return the canonical decimal
string. -/
def validate_age (value : String) : Bool × String :=
  match firstDigitRun value with
  | none => (false, value)
  | some ds =>
    let age := natOfDigits ds
    if age ≤ 120 then (true, toString age) else (false, value)

/-- Character class of the URL regex body: everything except whitespace and
the characters excluded by `[^\s<>"\[\]{}|\\^\x60]`. -/
def urlBodyChar (c : Char) : Bool :=
  !(c.isWhitespace || c = '<' || c = '>' || c = '"' || c = '[' || c = ']' ||
    c = '\x7b' || c = '\x7d' || c = '|' || c = '\\' || c = '^' || c = '\x60')

/-- Decision of `^https?://[body]+\.[a-zA-Z]{2,}[body]*$` for the text after
the scheme: all characters in the body class, with some dot preceded by at
least one character and followed by at least two ASCII letters. -/
def urlRestMatch (rest : List Char) : Bool :=
  rest.all urlBodyChar && !rest.isEmpty &&
    (List.range rest.length).any (fun i =>
      decide (1 ≤ i) && decide (rest.getD i ' ' = '.') &&
        isAsciiAlpha (rest.getD (i + 1) ' ') &&
        isAsciiAlpha (rest.getD (i + 2) ' ') &&
        decide (i + 2 < rest.length))

/-- `FieldValidator.validate_url` (lines 118-136): strip, prepend `https://`
for `www.` or bare-domain values, then match the URL regex. -/
def validate_url (value : String) : Bool × String :=
  let v := pyStrip value
  if v = "" then (false, v)
  else
    let v :=
      if pyStartsWith v "http://" || pyStartsWith v "https://" then v
      else if pyStartsWith v "www." then "https://" ++ v
      else if strContains v "." then "https://" ++ v
      else v
    let rest :=
      if pyStartsWith v "https://" then (v.toList.drop 8)
      else if pyStartsWith v "http://" then (v.toList.drop 7)
      else []
    if (pyStartsWith v "https://" || pyStartsWith v "http://") && urlRestMatch rest then
      (true, v)
    else
      (false, v)

/-! ## `ExtractedField` and `SmartFieldExtractor` (lines 46-53, 202-490)

The Python `re` engine is external; each call
`re.finditer(pattern, text, ...)` is modelled by an oracle
`MatchOracle : String → List (String × ℕ)` giving, for a pattern string, the
list of (captured group, match start position) pairs it produces on the
message under consideration.  Everything the extractor does with those
matches is translated faithfully. -/

/-- `ExtractedField` dataclass (lines 46-53). -/
structure ExtractedField where
  value : String
  confidence : ℚ
  source_pattern : String
  position : ℕ := 0
  validation_passed : Bool := true
deriving DecidableEq, Repr

/-- One entry of the pattern tables of `get_extraction_patterns`
(lines 209-361): the regex source text, its base confidence and its
description. -/
structure PatternInfo where
  pattern : String
  confidence : ℚ
  description : String
deriving DecidableEq, Repr

/-- `SmartFieldExtractor.get_extraction_patterns` (lines 209-361): the
pattern table, as the Python dict literal. -/
def extraction_patterns_table : List (String × List PatternInfo) :=
  [("name",
    [⟨"(?:お?名前|氏名|申込者名|ご依頼者)[：:\\s]*([^\\n\\r]\x7b1,50\x7d?)(?:\\s*(?:\\n|$|フリガナ|ふりがな))",
      9/10, "Direct name field"⟩,
     ⟨"([^\\s\\n]\x7b2,10\x7d)\\s*(?:様|さん|氏|殿)(?:\\s|$)", 7/10, "Name with honorific"⟩,
     ⟨"お客様.*?[：:]([^\\n\\r]\x7b2,20\x7d)(?:\\n|$)", 6/10, "Customer name context"⟩]),
   ("furigana",
    [⟨"(?:フリガナ|ふりがな|カナ)[：:\\s]*([ァ-ヾ\\s]\x7b2,30\x7d)(?:\\n|$)", 95/100,
      "Direct furigana field"⟩,
     ⟨"([ァ-ヾ\\s]\x7b4,20\x7d)(?:\\s|$)", 5/10, "Katakana sequence"⟩]),
   ("email",
    [⟨"(?:メールアドレス|E-?mail|e-?mail)[：:\\s]*([^\\s\\n]+@[^\\s\\n]+\\.[a-zA-Z]\x7b2,\x7d)(?:\\s|$)",
      95/100, "Direct email field"⟩,
     ⟨"([a-zA-Z0-9._%+-]+@[a-zA-Z0-9.-]+\\.[a-zA-Z]\x7b2,\x7d)", 9/10, "Email pattern anywhere"⟩]),
   ("phone",
    [⟨"(?:電話番号|TEL|Tel|Phone|携帯)[：:\\s]*([0-9\\-\\(\\)\\s]\x7b8,20\x7d)(?:\\n|$)", 9/10,
      "Direct phone field"⟩,
     ⟨"(\\b(?:0\\d\x7b1,4\x7d[-\\s]?\\d\x7b2,4\x7d[-\\s]?\\d\x7b4\x7d|0\\d\x7b9,10\x7d)\\b)", 85/100,
      "Japanese phone pattern"⟩]),
   ("age",
    [⟨"(?:年齢|Age)[：:\\s]*(\\d\x7b1,3\x7d)(?:歳|才|$)", 95/100, "Direct age field"⟩,
     ⟨"(\\d\x7b1,3\x7d)(?:歳|才)(?:\\s|$)", 8/10, "Age with suffix"⟩]),
   ("postal_code",
    [⟨"(?:郵便番号|〒)[：:\\s]*(\\d\x7b3\x7d-?\\d\x7b4\x7d)(?:\\s|$)", 95/100,
      "Direct postal code field"⟩,
     ⟨"〒\\s*(\\d\x7b3\x7d-?\\d\x7b4\x7d)", 9/10, "Postal symbol pattern"⟩]),
   ("address",
    [⟨"(?:住所|ご住所|所在地)[：:\\s]*([^\\n]\x7b5,100\x7d)(?:\\n|$)", 9/10, "Direct address field"⟩,
     ⟨"([都道府県市区町村][^\\n]\x7b10,80\x7d)(?:\\n|$)", 7/10, "Japanese address pattern"⟩]),
   ("inquiry_text",
    [⟨"(?:お問い?合わせ内容|ご質問|相談内容|お問合せ)[：:\\s]*([^\\n]\x7b10,500\x7d)(?:\\n\\n|$)",
      9/10, "Direct inquiry field"⟩,
     ⟨"(?:メッセージ|内容|詳細|ご要望)[：:\\s]*([^\\n]\x7b10,500\x7d)(?:\\n\\n|$)", 8/10,
      "Message content field"⟩]),
   ("company_name",
    [⟨"(?:会社名|企業名|法人名)[：:\\s]*([^\\n]\x7b2,50\x7d)(?:\\n|$)", 9/10, "Direct company field"⟩,
     ⟨"([^\\s\\n]+(?:株式会社|有限会社|合同会社|LLC|Inc|Corp|Ltd))", 8/10, "Company with suffix"⟩]),
   ("property_name",
    [⟨"(?:物件名|建物名)[：:\\s]*([^\\n]\x7b2,50\x7d)(?:\\n|$)", 9/10, "Direct property field"⟩,
     ⟨"([^\\n]*(?:マンション|アパート|ハウス|レジデンス|パーク)[^\\n]\x7b0,30\x7d)(?:\\n|$)", 7/10,
      "Property type pattern"⟩]),
   ("price",
    [⟨"(?:価格|金額|販売価格)[：:\\s]*([^\\n]\x7b3,30\x7d)(?:\\n|$)", 9/10, "Direct price field"⟩,
     ⟨"(\\d+(?:[,，]\\d\x7b3\x7d)*(?:万|億|千万)?円?)(?:\\s|$)", 8/10, "Japanese price pattern"⟩]),
   ("url",
    [⟨"(https?://[^\\s\\n<>\"\\[\\]\x7b\x7d|\\\\^\x60]+)", 95/100, "HTTP URL pattern"⟩,
     ⟨"(?:URL|Link)[：:\\s]*(www\\.[^\\s\\n]+)", 8/10, "WWW URL pattern"⟩])]

/-- `patterns.get(field_name, [])` (line 368): look the field name up in the
table, defaulting to `[]`. -/
def extraction_patterns (fieldName : String) : List PatternInfo :=
  ((extraction_patterns_table.find? (fun e => e.1 = fieldName)).map (fun e => e.2)).getD []

/-- Word character for the generic validity check: Python `\w` plus the
hiragana / katakana / CJK ranges the source lists.  (Python's Unicode `\w`
also covers further letter scripts; only ASCII and the listed Japanese
ranges occur in this program's data.) -/
def isWordChar (c : Char) : Bool :=
  c.isAlphanum || c = '_' ||
    (0x3040 ≤ c.toNat && c.toNat ≤ 0x309F) ||
    (0x30A0 ≤ c.toNat && c.toNat ≤ 0x30FF) ||
    (0x4E00 ≤ c.toNat && c.toNat ≤ 0x9FAF)

/-- Remove a leading `[：:]` together with the whitespace around it
(`re.sub(r'^\s*[：:]\s*', '', ·)` applied to an already-stripped string). -/
def stripLeadColonWs (s : String) : String :=
  match s.toList with
  | c :: rest => if c = ':' ∨ c = '：' then String.mk (rest.dropWhile Char.isWhitespace) else s
  | [] => s

/-- Remove a trailing `[：:]` together with the whitespace around it
(`re.sub(r'\s*[：:]\s*$', '', ·)` applied to an already-stripped string). -/
def stripTrailColonWs (s : String) : String :=
  match s.toList.reverse with
  | c :: rest => if c = ':' ∨ c = '：' then
      String.mk ((rest.dropWhile Char.isWhitespace).reverse) else s
  | [] => s

/-- Remove a trailing honorific (`re.sub(r'\s*様\s*$', '', ·)` and the like,
applied to an already-stripped string), stripping the result. -/
def stripTrailTok (s tok : String) : String :=
  if pyEndsWith s tok then
    pyStrip (String.mk (s.toList.take (s.toList.length - tok.toList.length)))
  else s

/-- `SmartFieldExtractor.clean_generic_value` (lines 432-450). -/
def clean_generic_value (value : String) : String :=
  if value = "" then ""
  else
    let c0 := pyStrip value
    let c1 := pyStrip (stripLeadColonWs c0)
    let c2 := pyStrip (stripTrailColonWs c1)
    let c3 := stripTrailTok c2 "様"
    let c4 := stripTrailTok c3 "さん"
    stripTrailTok c4 "殿"

/-- `SmartFieldExtractor.validate_field_value` (lines 414-430): dispatch to
the specific validator, or apply the generic cleanup/length/word-character
check. -/
def validate_field_value (fieldName value : String) : Bool × String :=
  if fieldName = "email" then validate_email value
  else if fieldName = "phone" then validate_phone value
  else if fieldName = "postal_code" then validate_postal_code value
  else if fieldName = "age" then validate_age value
  else if fieldName = "url" then validate_url value
  else
    let cleaned := clean_generic_value value
    let isValid := decide (2 ≤ cleaned.toList.length) &&
      !(!cleaned.toList.isEmpty && cleaned.toList.all (fun c => !isWordChar c))
    (isValid, cleaned)

/-- `context_keywords` table of `calculate_context_confidence`
(lines 459-465). -/
def context_keywords (fieldName : String) : List String :=
  if fieldName = "name" then ["名前", "name", "氏名", "お客様"]
  else if fieldName = "email" then ["メール", "mail", "アドレス", "連絡先"]
  else if fieldName = "phone" then ["電話", "tel", "phone", "携帯", "番号"]
  else if fieldName = "address" then ["住所", "address", "所在地"]
  else if fieldName = "inquiry" then ["問い合わせ", "inquiry", "質問", "相談"]
  else []

/-- `SmartFieldExtractor.calculate_context_confidence` (lines 452-474):
`+0.1` for each field keyword present in the 100-character window around the
match, capped at `0.2`. -/
def calculate_context_confidence (text : String) (position : ℕ) (fieldName : String) : ℚ :=
  let contextWindow := 100
  let start := position - contextWindow
  let stop := min text.toList.length (position + contextWindow)
  let context := pyLower (String.mk ((text.toList.drop start).take (stop - start)))
  let bonus := (context_keywords fieldName).foldl
    (fun b kw => if strContains context kw then b + 1/10 else b) 0
  ratMin (1/5) bonus

/-- Normalised value used as deduplication key
(`field.value.lower().strip()`, line 485). -/
def normVal (f : ExtractedField) : String :=
  pyStrip (pyLower f.value)

/-- Lookup in the insertion-ordered association list modelling the Python
dict `seen_values`. -/
def lookupD (seen : List (String × ExtractedField)) (k : String) : Option ExtractedField :=
  (seen.find? (fun p => p.1 = k)).map (·.2)

/-- Python dict assignment `seen[k] = v`: replace the value in place when
the key exists (keeping its insertion position), else append. -/
def pyDictInsert (k : String) (v : ExtractedField) :
    List (String × ExtractedField) → List (String × ExtractedField)
  | [] => [(k, v)]
  | (k₁, v₁) :: rest =>
    if k₁ = k then (k₁, v) :: rest else (k₁, v₁) :: pyDictInsert k v rest

/-- One iteration of the loop of `deduplicate_fields` (lines 484-488). -/
def dedupStep (seen : List (String × ExtractedField)) (f : ExtractedField) :
    List (String × ExtractedField) :=
  match lookupD seen (normVal f) with
  | none => pyDictInsert (normVal f) f seen
  | some g =>
    if g.confidence < f.confidence then pyDictInsert (normVal f) f seen else seen

/-- `SmartFieldExtractor.deduplicate_fields` (lines 476-490): keep, per
normalised value, the highest-confidence instance, in dict insertion
order. -/
def deduplicate_fields (fields : List ExtractedField) : List ExtractedField :=
  if fields.isEmpty then fields
  else (fields.foldl dedupStep []).map (·.2)

/-- Sort key of line 411, `key=lambda x: (-x.confidence, x.position)`, as the
corresponding total preorder: higher confidence first, ties by earlier
position. -/
def fieldLe (f g : ExtractedField) : Prop :=
  g.confidence < f.confidence ∨ (f.confidence = g.confidence ∧ f.position ≤ g.position)

instance : DecidableRel fieldLe := fun f g => by
  unfold fieldLe; infer_instance

instance : IsTotal ExtractedField fieldLe where
  total f g := by
    unfold fieldLe
    rcases lt_trichotomy f.confidence g.confidence with h | h | h
    · exact Or.inr (Or.inl h)
    · rcases Nat.le_total f.position g.position with hp | hp
      · exact Or.inl (Or.inr ⟨h, hp⟩)
      · exact Or.inr (Or.inr ⟨h.symm, hp⟩)
    · exact Or.inl (Or.inl h)

instance : IsTrans ExtractedField fieldLe where
  trans f g h := by
    unfold fieldLe
    rintro (hfg | ⟨hfg, hp⟩) (hgh | ⟨hgh, hq⟩)
    · exact Or.inl (hgh.trans hfg)
    · exact Or.inl (hgh ▸ hfg)
    · exact Or.inl (hfg ▸ hgh)
    · exact Or.inr ⟨hfg.trans hgh, hp.trans hq⟩

/-- The stable sort of line 411 (Python `list.sort` with the tuple key). -/
def pySortFields (fields : List ExtractedField) : List ExtractedField :=
  List.insertionSort fieldLe fields

/-- Outcome of the external `re.finditer` calls for one message: for a
pattern source text, the captured values and their match positions. -/
def MatchOracle : Type := String → List (String × ℕ)

/-- The candidate-collection loop of `SmartFieldExtractor.extract_field`
(lines 374-408): every oracle match of every pattern of the field, stripped,
validated, and given confidence `min(0.99, base + context bonus)`. -/
def rawCandidates (text fieldName : String) (oracle : MatchOracle) : List ExtractedField :=
  (extraction_patterns fieldName).flatMap (fun pi =>
    (oracle pi.pattern).filterMap (fun m =>
      let value := pyStrip m.1
      if value = "" then none
      else
        let vr := validate_field_value fieldName value
        if vr.1 = true ∧ vr.2 ≠ "" then
          some { value := vr.2,
                 confidence := ratMin (99/100)
                   (pi.confidence + calculate_context_confidence text m.2 fieldName),
                 source_pattern := pi.description,
                 position := m.2,
                 validation_passed := true }
        else none))

/-- `SmartFieldExtractor.extract_field` (lines 363-412): collect candidates,
sort by `(-confidence, position)`, deduplicate. -/
def extract_field (text fieldName : String) (oracle : MatchOracle) : List ExtractedField :=
  if text = "" ∨ fieldName = "" then []
  else deduplicate_fields (pySortFields (rawCandidates text fieldName oracle))

/-- Python `max(fields, key=lambda x: x.confidence)` (line 894): the first
element attaining the maximal confidence, `none` on the empty list. -/
def pyMaxByConf : List ExtractedField → Option ExtractedField
  | [] => none
  | x :: xs => some (xs.foldl (fun acc y => if acc.confidence < y.confidence then y else acc) x)

/-! ## `UniversalJSONProcessor` (lines 727-960)

`UniversalData` keeps exactly the slots of the universal JSON template that
`extract_universal_json_data` / `map_fields_to_universal_json` ever write;
the remaining template keys are constants (empty strings / fixed metadata)
and are omitted from the record. -/

/-- The mutable slots of the universal JSON template (lines 733-858),
with the template's defaults. -/
structure UniversalData where
  sender_email : String := ""
  timestamp : String := ""
  subject : String := ""
  extraction_confidence : ℚ := 0
  extracted_field_count : ℕ := 0
  company_company_name : String := ""
  company_received_datetime : String := ""
  company_id : String := ""
  company_url : String := ""
  event_url : String := ""
  reservation_property_name : String := ""
  reservation_price : String := ""
  inquiry_text : String := ""
  property_company_name : String := ""
  property_property_name : String := ""
  property_price : String := ""
  property_url : String := ""
  customer_name : String := ""
  customer_furigana : String := ""
  customer_email : String := ""
  customer_phone : String := ""
  customer_age : String := ""
  customer_postal_code : String := ""
  customer_address : String := ""
  customer_comments : String := ""
deriving DecidableEq, Repr

/-- The header fields of a fetched message as used by the processor
(`extract_email_data` output, lines 1288-1335). -/
structure EmailData where
  id : String := ""
  subject : String := ""
  body : String := ""
  sender : String := ""
  formatted_date : String := ""
deriving DecidableEq, Repr

/-- `UniversalJSONProcessor.map_fields_to_universal_json` (lines 914-960):
route each extracted field to its destinations, suffixing ages with `歳` and
prefixing postal codes with `〒` when missing. -/
def map_fields_to_universal_json (u : UniversalData)
    (extractedFields : List (String × ExtractedField)) : UniversalData :=
  extractedFields.foldl (fun u p =>
    let fieldName := p.1
    let value := p.2.value
    if pyStrip value = "" then u
    else if fieldName = "name" then { u with customer_name := value }
    else if fieldName = "furigana" then { u with customer_furigana := value }
    else if fieldName = "email" then { u with customer_email := value }
    else if fieldName = "phone" then { u with customer_phone := value }
    else if fieldName = "age" then
      let value := if !(pyEndsWith value "歳" || pyEndsWith value "才") then value ++ "歳" else value
      { u with customer_age := value }
    else if fieldName = "postal_code" then
      let value := if !(pyStartsWith value "〒") then "〒" ++ value else value
      { u with customer_postal_code := value }
    else if fieldName = "address" then { u with customer_address := value }
    else if fieldName = "inquiry_text" then
      { u with inquiry_text := value, customer_comments := value }
    else if fieldName = "company_name" then
      { u with company_company_name := value, property_company_name := value }
    else if fieldName = "property_name" then
      { u with property_property_name := value, reservation_property_name := value }
    else if fieldName = "price" then
      { u with property_price := value, reservation_price := value }
    else if fieldName = "url" then
      { u with company_url := value, event_url := value, property_url := value }
    else u) u

/-- Round half to even at integer precision (Python's `round`). -/
def roundHalfEven (q : ℚ) : ℤ :=
  let f := ⌊q⌋
  let frac := q - f
  if frac < 1/2 then f
  else if 1/2 < frac then f + 1
  else if f % 2 = 0 then f else f + 1

/-- Python `round(x, 3)` on the exact rational value. -/
def pyRound3 (q : ℚ) : ℚ :=
  (roundHalfEven (q * 1000) : ℚ) / 1000

/-- The field list iterated by `extract_universal_json_data` (lines
884-888). -/
def field_names : List String :=
  ["name", "furigana", "email", "phone", "age", "postal_code",
   "address", "inquiry_text", "company_name", "property_name",
   "price", "url"]

/-- Sum of the confidences of a field map (`sum(confidences)` over
`all_extracted_fields.values()`). -/
def sumConf (fields : List (String × ExtractedField)) : ℚ :=
  (fields.map (fun p => p.2.confidence)).sum

/-- Mean confidence as computed at lines 903-906 (and again at lines
610-613 and 1632-1636): arithmetic mean, or `0.0` for an empty map. -/
def meanConf (fields : List (String × ExtractedField)) : ℚ :=
  if fields.isEmpty then 0 else sumConf fields / fields.length

/-- `UniversalJSONProcessor.extract_universal_json_data` (lines 860-912):
fill the header slots, extract the best candidate of each field, map them
into the template, and stamp the metadata (`round(avg, 3)`, field count).
The wall-clock `processing_time_ms` is environment input and not modelled.
Returns the record and the extracted-field map (in `field_names` order, as
Python dict insertion order gives). -/
def extract_universal_json_data (emailData : EmailData) (oracle : MatchOracle) :
    UniversalData × List (String × ExtractedField) :=
  let u0 : UniversalData :=
    { sender_email := emailData.sender
      timestamp := emailData.formatted_date
      subject := emailData.subject
      company_received_datetime := emailData.formatted_date
      company_id := emailData.id }
  let full_text := emailData.subject ++ "\n" ++ emailData.body
  let allFields := field_names.filterMap (fun fn =>
    match pyMaxByConf (extract_field full_text fn oracle) with
    | none => none
    | some best => some (fn, best))
  let u1 := map_fields_to_universal_json u0 allFields
  ({ u1 with
      extraction_confidence := pyRound3 (meanConf allFields)
      extracted_field_count := allFields.length },
   allFields)

/-! ## `check_data_relevance` (lines 1445-1539)

Keyword presence is Python substring containment, translated directly;
the ten `re.search` pattern probes go through a `regexHit` oracle keyed by
the pattern source text; the two structural counts (`[：:]` and newline
occurrences) are literal character counts. -/

/-- `high_value_keywords` (lines 1457-1478). -/
def high_value_keywords : List (String × ℚ) :=
  [("お名前", 15), ("name", 12), ("氏名", 15), ("申込者", 12),
   ("メール", 12), ("email", 12), ("アドレス", 10),
   ("電話", 12), ("tel", 10), ("phone", 10), ("番号", 8),
   ("住所", 12), ("address", 10), ("所在地", 10),
   ("フォーム", 20), ("form", 18), ("お問い合わせ", 25), ("問い合わせ", 20),
   ("申込", 20), ("申し込み", 20), ("application", 15),
   ("予約", 15), ("reservation", 12), ("booking", 12),
   ("相談", 12), ("consultation", 10), ("見学", 12),
   ("物件", 18), ("property", 15), ("不動産", 20), ("real estate", 18),
   ("住宅", 15), ("house", 12), ("housing", 12),
   ("マンション", 15), ("mansion", 12), ("アパート", 12),
   ("戸建", 15), ("一戸建て", 15),
   ("会社", 8), ("company", 8), ("企業", 8), ("法人", 8)]

/-- `medium_value_keywords` (lines 1481-1487). -/
def medium_value_keywords : List (String × ℚ) :=
  [("価格", 8), ("price", 8), ("金額", 8), ("料金", 8),
   ("希望", 6), ("要望", 6), ("request", 6),
   ("質問", 8), ("question", 6), ("回答", 6),
   ("情報", 4), ("info", 4), ("information", 4),
   ("詳細", 6), ("details", 6), ("内容", 4)]

/-- `patterns_scores` (lines 1499-1510): regex probes and their weights. -/
def patterns_scores : List (String × ℚ) :=
  [("[：:]\\s*[^\\n]", 8),
   ("お客様情報", 15),
   ("ご質問.*[：:]", 12),
   ("申し込み.*[：:]", 15),
   ("\\d+-\\d+-\\d+", 10),
   ("@[a-zA-Z0-9.-]+\\.", 12),
   ("[都道府県市区町村]", 8),
   ("\\d+(?:万|千|億)円", 10),
   ("https?://", 6),
   ("www\\.", 4)]

/-- `negative_keywords` (lines 1524-1528). -/
def negative_keywords : List String :=
  ["spam", "advertisement", "広告", "宣伝",
   "newsletter", "unsubscribe", "配信停止",
   "notification", "通知", "alert", "アラート"]

/-- Outcome of the ten `re.search(pattern, email_text, IGNORECASE)` probes,
keyed by pattern source text. -/
def RegexOracle : Type := String → Bool

/-- The lowercased `subject body sender` text scored by
`check_data_relevance` (lines 1447-1450). -/
def relevance_text (emailData : EmailData) : String :=
  pyLower emailData.subject ++ " " ++ pyLower emailData.body ++ " " ++
    pyLower emailData.sender

/-- The accumulated `relevance_score` of `check_data_relevance`
(lines 1452-1532): keyword and pattern weights, the two structural
indicators, and the negative-keyword penalty. -/
def relevance_score (emailData : EmailData) (regexHit : RegexOracle) : ℚ :=
  let email_text := relevance_text emailData
  let s1 := high_value_keywords.foldl
    (fun sc kv => if strContains email_text kv.1 then sc + kv.2 else sc) (0 : ℚ)
  let s2 := medium_value_keywords.foldl
    (fun sc kv => if strContains email_text kv.1 then sc + kv.2 else sc) s1
  let s3 := patterns_scores.foldl
    (fun sc pv => if regexHit pv.1 then sc + pv.2 else sc) s2
  let s4 := if 3 ≤ countChar email_text ':' + countChar email_text '：' then s3 + 10 else s3
  let s5 := if 5 ≤ countChar email_text '\n' then s4 + 5 else s4
  negative_keywords.foldl
    (fun sc kw => if strContains email_text kw then sc - 10 else sc) s5

/-- `EnhancedGmailProcessor.check_data_relevance` (lines 1445-1539):
weighted keyword/pattern scoring, normalised by `max_score = 100`, capped
above at `1.0`, thresholded at `0.3`. -/
def check_data_relevance (emailData : EmailData) (regexHit : RegexOracle) : Bool × ℚ :=
  let max_score : ℚ := 100
  let confidence := ratMin 1 (relevance_score emailData regexHit / max_score)
  (decide ((3 : ℚ)/10 ≤ confidence), confidence)

/-! ## `send_to_webhook` (lines 1541-1579)

`requests.post` is external: a `PostResult` describes the outcome of one
HTTP POST (an exception raised by `requests`, or a response with a status
code).  The `@backoff.on_exception(backoff.expo,
requests.exceptions.RequestException, max_tries=3)` decorator re-calls the
decorated function, up to 3 calls in total, as long as it raises a
`RequestException`; it is modelled by `backoff_on_exception` below. -/

/-- Outcome of one `requests.post` call: a raised `RequestException`
(timeout, connection failure, …) or a response with its status code. -/
inductive PostResult where
  | exc (msg : String)
  | resp (status : ℕ)
deriving DecidableEq, Repr

/-- The statuses accepted at line 1570: `[200, 201, 202, 204]`. -/
def successStatuses : List ℕ := [200, 201, 202, 204]

/-- The body of `send_to_webhook` for one call (lines 1544-1579): with no
URL configured, return `False` before any POST; otherwise one POST whose
raised exception — of any class — is caught by the `except Exception`
handler and turned into `False`, and whose status is checked against
`successStatuses`.  Result: `(return value, number of POSTs issued)`;
the body itself never raises. -/
def send_to_webhook_body (webhookUrl : Option String) (post : PostResult) : Bool × ℕ :=
  match webhookUrl with
  | none => (false, 0)
  | some _ =>
    match post with
    | .exc _ => (false, 1)
    | .resp status => (decide (status ∈ successStatuses), 1)

/-- `backoff.on_exception(..., max_tries = n)`: call `f`, re-calling while
it raises, for at most `n` calls; return the final outcome, the number of
calls made, and the total count accumulated by the calls. -/
def backoff_on_exception (maxTries : ℕ) (f : ℕ → Except String (Bool × ℕ)) :
    Except String (Bool × ℕ) × ℕ :=
  go maxTries 0
where
  go : ℕ → ℕ → Except String (Bool × ℕ) × ℕ
    | 0, i => (f i, i + 1)
    | fuel + 1, i =>
      match f i with
      | .ok r => (.ok r, i + 1)
      | .error e => if i + 1 < maxTries then go fuel (i + 1) else (.error e, i + 1)

/-- `EnhancedGmailProcessor.send_to_webhook` (lines 1541-1579), decorator
included.  `posts i` is the outcome the network would give the `i`-th POST.
Returns `(return value, POSTs actually issued)`.  Because the body catches
every exception itself, the decorator always sees a normal return. -/
def send_to_webhook (webhookUrl : Option String) (posts : ℕ → PostResult) : Bool × ℕ :=
  match backoff_on_exception 3 (fun i => .ok (send_to_webhook_body webhookUrl (posts i))) with
  | (.ok r, _) => r
  | (.error _, _) => (false, 0)

/-! ## `EmailDatabase` ledger (lines 492-726)

The `processed_emails` table is modelled as a list of entries; `INSERT OR
REPLACE` on the `UNIQUE` column `email_id` removes any previous row with the
same id and appends the new one.  (The auxiliary `extracted_fields` analysis
table and the never-written `processing_stats` table are not part of the
ledger the claims are about.) -/

/-- `ProcessingResult` dataclass (lines 55-64).  `universal_data = none`
models the falsy default `{}`. -/
structure ProcessingResult where
  success : Bool
  email_id : String
  extracted_fields : List (String × ExtractedField) := []
  universal_data : Option UniversalData := none
  webhook_sent : Bool := false
  archived : Bool := false
  error_message : String := ""
deriving DecidableEq, Repr

/-- One row of `processed_emails` as written by `mark_email_processed`
(columns of lines 622-638; the MD5 `content_hash` is determined by
`universal_data` and not separately modelled, and `archived` keeps its
column default `FALSE` since `mark_email_processed` never writes it). -/
structure LedgerEntry where
  email_id : String
  webhook_sent : Bool
  json_data : Option UniversalData
  extraction_confidence : ℚ
  field_count : ℕ
  error_message : Option String
deriving DecidableEq, Repr

/-- The `processed_emails` table. -/
def EmailDatabase : Type := List LedgerEntry

instance : DecidableEq EmailDatabase :=
  fun a b => (inferInstanceAs (DecidableEq (List LedgerEntry))) a b

/-- `EmailDatabase.is_email_processed` (lines 590-600). -/
def is_email_processed (db : EmailDatabase) (emailId : String) : Bool :=
  db.any (fun e => e.email_id = emailId)

/-- The row `mark_email_processed` builds from a `ProcessingResult`
(lines 609-638). -/
def mkLedgerEntry (r : ProcessingResult) : LedgerEntry :=
  { email_id := r.email_id
    webhook_sent := r.webhook_sent
    json_data := r.universal_data
    extraction_confidence := meanConf r.extracted_fields
    field_count := r.extracted_fields.length
    error_message := if r.error_message = "" then none else some r.error_message }

/-- `EmailDatabase.mark_email_processed` (lines 602-659): `INSERT OR
REPLACE` keyed by `email_id` — any previous row with that id is replaced.
(Its internal `except` swallows storage errors; storage itself is assumed
healthy here.) -/
def mark_email_processed (db : EmailDatabase) (r : ProcessingResult) : EmailDatabase :=
  db.filter (fun e => e.email_id ≠ r.email_id) ++ [mkLedgerEntry r]

/-! ## Orchestrator (lines 962-1766)

Per-message external behaviour is bundled in `EmailCase`: the regex oracles
for relevance and extraction, the network's answers to webhook POSTs, the
Gmail archive call's outcome, and an optional unexpected exception raised at
the start of `process_single_email`'s `try` block (modelling "processing
this message throws"). -/

/-- Configuration read in `__init__` (lines 967-987). -/
structure GmailConfig where
  webhookUrl : Option String := none
  maxEmails : ℕ := 20
  archiveProcessed : Bool := true
  minConfidenceThreshold : ℚ := 3/10
deriving Repr

/-- External behaviour of one message's processing. -/
structure EmailCase where
  email : EmailData
  regexHit : RegexOracle
  matchO : MatchOracle
  posts : ℕ → PostResult
  archiveOk : Bool
  inject : Option String

/-- `EnhancedGmailProcessor.archive_email` (lines 1581-1601): `True` when
archiving is disabled; otherwise the Gmail `modify` call's outcome
(exceptions become `False`). -/
def archive_email (cfg : GmailConfig) (archiveOk : Bool) : Bool :=
  if !cfg.archiveProcessed then true else archiveOk

/-- The key fields of line 1644. -/
def key_fields : List String := ["name", "email", "phone", "inquiry_text"]

/-- `EnhancedGmailProcessor.process_single_email` (lines 1603-1687).
Second component: number of webhook POSTs issued while processing.  An
injected exception models an unexpected error raised inside the `try`
block before any other work; the `except` turns it into a failed result
carrying the message, as at lines 1683-1687.  (The human-readable
`error_message` strings of the skip branches carry formatted confidences in
the source; the numeric formatting is elided here.) -/
def process_single_email (cfg : GmailConfig) (c : EmailCase) : ProcessingResult × ℕ :=
  let base : ProcessingResult := { success := false, email_id := c.email.id }
  match c.inject with
  | some e => ({ base with error_message := e }, 0)
  | none =>
    let rel := check_data_relevance c.email c.regexHit
    if !rel.1 then
      ({ base with success := true, error_message := "Low relevance" }, 0)
    else
      let extracted := extract_universal_json_data c.email c.matchO
      let universal := extracted.1
      let fields := extracted.2
      let avg := meanConf fields
      let hasMeaningful := cfg.minConfidenceThreshold ≤ avg ∧ 2 ≤ fields.length
      let hasKeyField := key_fields.any (fun k => fields.any (fun p => p.1 = k))
      if ¬hasMeaningful ∧ ¬hasKeyField then
        ({ base with
            success := true
            universal_data := some universal
            extracted_fields := fields
            error_message := "Insufficient data quality" }, 0)
      else
        let send :=
          match cfg.webhookUrl with
          | some _ => send_to_webhook cfg.webhookUrl c.posts
          | none => (true, 0)   -- line 1667: success when no webhook configured
        let webhook_sent := send.1
        let archived := webhook_sent && archive_email cfg c.archiveOk
        ({ base with
            success := true
            webhook_sent := webhook_sent
            archived := archived
            universal_data := some universal
            extracted_fields := fields }, send.2)

/-- One entry of the inbox listing consumed by
`_process_emails_sequential`: the message id from the `messages().list`
response, and — when fetching and `extract_email_data` succeed — the
message's processing behaviour (`none` models a per-message fetch/parse
failure, which the loop skips). -/
structure FetchItem where
  msgId : String
  fetched : Option EmailCase

/-- The loop of `_process_emails_sequential` (lines 1200-1235): skip ids
already in the ledger, skip fetch failures, stop once `max_emails` new
messages are collected (the freshly appended message is kept). -/
def seqGo (db : EmailDatabase) (maxEmails : ℕ) :
    List FetchItem → List EmailCase → List EmailCase
  | [], acc => acc
  | item :: rest, acc =>
    if is_email_processed db item.msgId then seqGo db maxEmails rest acc
    else
      match item.fetched with
      | none => seqGo db maxEmails rest acc
      | some c =>
        let acc := acc ++ [c]
        if maxEmails ≤ acc.length then acc else seqGo db maxEmails rest acc

/-- `EnhancedGmailProcessor._process_emails_sequential` (lines
1200-1235). -/
def _process_emails_sequential (db : EmailDatabase) (maxEmails : ℕ)
    (items : List FetchItem) : List EmailCase :=
  seqGo db maxEmails items []

/-- `EnhancedGmailProcessor.get_latest_emails` (lines 1153-1198): a failure
of the inbox-listing call (`listOk = false`) is caught and yields `[]`;
otherwise the sequential scan over the listed ids.  (The
`parallel_processing` path is disabled by default and not modelled.) -/
def get_latest_emails (cfg : GmailConfig) (db : EmailDatabase) (listOk : Bool)
    (items : List FetchItem) : List EmailCase :=
  if !listOk then []
  else _process_emails_sequential db cfg.maxEmails items

/-- The batch summary dict of `process_emails`.  The three dict shapes of
the source (lines 1700-1707, 1745-1753, 1760-1766) are merged into one
record; keys a branch does not set keep `0` / `none`. -/
structure Summary where
  processed : ℕ := 0
  successful_webhooks : ℕ := 0
  failed_webhooks : ℕ := 0
  archived : ℕ := 0
  average_confidence : ℚ := 0
  error : Option String := none
deriving DecidableEq, Repr

/-- Outcome of one `process_emails` call: the returned summary, the ledger
after the run, and — instrumentation — for each processed message its id
and the number of webhook POSTs issued for it. -/
structure BatchResult where
  summary : Summary
  db : EmailDatabase
  results : List ProcessingResult
  sendCounts : List (String × ℕ)

/-- The summary built at lines 1727-1753 from the per-message results:
every result counts as processed; webhook failures are
`processed - successes`; the average confidence averages the per-message
mean confidences of messages with at least one extracted field.  This is
the value `process_emails` is about to return when it reaches line 1743. -/
def intended_summary (results : List ProcessingResult) : Summary :=
  let processed := results.length
  let successes := (results.filter (fun r => r.webhook_sent)).length
  let failures := processed - successes
  let archivedCount := (results.filter (fun r => r.archived)).length
  let confidences := (results.filter (fun r => !r.extracted_fields.isEmpty)).map
    (fun r => meanConf r.extracted_fields)
  let avg := if confidences.isEmpty then 0 else confidences.sum / confidences.length
  { processed := processed
    successful_webhooks := successes
    failed_webhooks := failures
    archived := archivedCount
    average_confidence := pyRound3 avg }

/-- The message of the `AttributeError` raised at line 1743:
`EmailDatabase` defines no method `update_daily_stats`, so
`self.db.update_daily_stats(...)` raises for every nonempty batch. -/
def updateDailyStatsError : String :=
  "AttributeError: EmailDatabase object has no attribute update_daily_stats"

/-- The body of the per-message loop of `process_emails` (lines
1713-1722): process one message, record the outcome in the ledger, and
accumulate the result and the (ghost) webhook POST count. -/
def batchStep (cfg : GmailConfig)
    (acc : EmailDatabase × List ProcessingResult × List (String × ℕ))
    (c : EmailCase) : EmailDatabase × List ProcessingResult × List (String × ℕ) :=
  let pr := process_single_email cfg c
  (mark_email_processed acc.1 pr.1, acc.2.1 ++ [pr.1], acc.2.2 ++ [(pr.1.email_id, pr.2)])

/-- `EnhancedGmailProcessor.process_emails` (lines 1689-1766).  An empty
fetch returns the zeroed summary of lines 1700-1707.  Otherwise each
message is processed and recorded in the ledger; the summary of lines
1745-1753 is computed — and then line 1743's call to the nonexistent
`EmailDatabase.update_daily_stats` raises `AttributeError`, so the
`except` at line 1758 returns the zeroed summary with an `error` entry
instead.  (Ledger writes made inside the loop persist.) -/
def process_emails (cfg : GmailConfig) (db : EmailDatabase) (listOk : Bool)
    (items : List FetchItem) : BatchResult :=
  let emails := get_latest_emails cfg db listOk items
  if emails.isEmpty then
    { summary := {}, db := db, results := [], sendCounts := [] }
  else
    let folded := emails.foldl (batchStep cfg) (db, [], [])
    -- the `intended_summary folded.2.1` the code built is discarded by the
    -- AttributeError of line 1743; the except branch's summary is returned
    { summary := { error := some updateDailyStatsError }
      db := folded.1
      results := folded.2.1
      sendCounts := folded.2.2 }

/-! ## Concrete test inputs used by the theorems below -/

/-- Oracle reporting no regex-probe hit (a message matching none of the ten
relevance patterns). -/
def noHitOracle : RegexOracle := fun _ => false

/-- Oracle reporting no extraction-pattern match at all. -/
def emptyOracle : MatchOracle := fun _ => []

/-- Source text of the first `age` pattern. -/
def agePattern1 : String := "(?:年齢|Age)[：:\\s]*(\\d\x7b1,3\x7d)(?:歳|才|$)"

/-- Source text of the first `name` pattern. -/
def namePattern1 : String :=
  "(?:お?名前|氏名|申込者名|ご依頼者)[：:\\s]*([^\\n\\r]\x7b1,50\x7d?)(?:\\s*(?:\\n|$|フリガナ|ふりがな))"

/-- Source text of the first `furigana` pattern. -/
def furiganaPattern1 : String :=
  "(?:フリガナ|ふりがな|カナ)[：:\\s]*([ァ-ヾ\\s]\x7b2,30\x7d)(?:\\n|$)"

/-- Source text of the first `postal_code` pattern. -/
def postalPattern1 : String := "(?:郵便番号|〒)[：:\\s]*(\\d\x7b3\x7d-?\\d\x7b4\x7d)(?:\\s|$)"

/-- A message whose only extraction match is the age candidate `"150"`. -/
def ageOracle150 : MatchOracle := fun p => if p = agePattern1 then [("150", 4)] else []

/-- A message whose only extraction match is the age candidate `"45"`. -/
def ageOracle45 : MatchOracle := fun p => if p = agePattern1 then [("45", 4)] else []

/-- A message whose only extraction match is the postal-code candidate
`"〒123-4567"`. -/
def postalOracleP : MatchOracle := fun p => if p = postalPattern1 then [("〒123-4567", 4)] else []

/-- A plain message body for extraction tests. -/
def plainEmail : EmailData := { id := "m0", subject := "s", body := "b", sender := "c" }

/-- Matches producing a name (base confidence 0.9), a furigana (0.95) and an
age (0.95) candidate, none with a context bonus. -/
def oracle3F : MatchOracle := fun p =>
  if p = namePattern1 then [("山田太郎", 0)]
  else if p = furiganaPattern1 then [("ヤマダタロウ", 10)]
  else if p = agePattern1 then [("45", 20)] else []

/-- The spec's negative-keyword-only message: body `unsubscribe`, no
colon-delimited fields (none of the regex probes hit). -/
def unsubEmail : EmailData := { id := "mu", subject := "", body := "unsubscribe", sender := "" }

/-- A relevant inquiry message (subject `お問い合わせ`, a name line in the
body). -/
def inquiryEmail : EmailData :=
  { id := "m1", subject := "お問い合わせ", body := "お名前 山田太郎", sender := "x@y.jp" }

/-- The concrete extracted postal-code field used by witnesses. -/
def postalField123 : ExtractedField :=
  { value := "123-4567", confidence := 19/20, source_pattern := "Direct postal code field",
    position := 4, validation_passed := true }

/-- The extraction matches of `inquiryEmail`: one name candidate. -/
def inquiryMatches : MatchOracle :=
  fun p => if p = namePattern1 then [("山田太郎", 5)] else []

/-- The behaviour of `inquiryEmail`'s processing: one valid name match,
no webhook reachable (network would raise), archive would succeed. -/
def inquiryCase : EmailCase :=
  { email := inquiryEmail
    regexHit := noHitOracle
    matchO := inquiryMatches
    posts := fun _ => PostResult.exc "ReadTimeout"
    archiveOk := true
    inject := none }

/-- The name field extracted from `inquiryEmail` (base confidence `0.9`
plus the `名前` context bonus `0.1`, capped at `0.99`). -/
def inquiryNameField : ExtractedField :=
  { value := "山田太郎", confidence := 99/100, source_pattern := "Direct name field",
    position := 5, validation_passed := true }

/-- The canonical record assembled from `inquiryEmail`. -/
def inquiryUniversal : UniversalData :=
  { sender_email := "x@y.jp", subject := "お問い合わせ",
    extraction_confidence := 99/100, extracted_field_count := 1,
    company_id := "m1", customer_name := "山田太郎" }

/-- The processing result of `inquiryEmail` under `cfgNoUrl`. -/
def inquiryResult : ProcessingResult :=
  { success := true, email_id := "m1",
    extracted_fields := [("name", inquiryNameField)],
    universal_data := some inquiryUniversal,
    webhook_sent := true, archived := true, error_message := "" }

/-- The processing result of the message whose processing raises `boom`. -/
def injectResult : ProcessingResult :=
  { success := false, email_id := "m2", error_message := "boom" }

/-- The ledger row recorded for `inquiryEmail`. -/
def inquiryEntry : LedgerEntry :=
  { email_id := "m1", webhook_sent := true, json_data := some inquiryUniversal,
    extraction_confidence := 99/100, field_count := 1, error_message := none }

/-- The ledger row recorded for the raising message. -/
def injectEntry : LedgerEntry :=
  { email_id := "m2", webhook_sent := false, json_data := none,
    extraction_confidence := 0, field_count := 0, error_message := some "boom" }

/-- A message whose processing raises an unexpected exception `boom`. -/
def injectCase : EmailCase :=
  { email := { id := "m2", subject := "s", body := "b", sender := "c" }
    regexHit := noHitOracle
    matchO := fun _ => []
    posts := fun _ => PostResult.exc "ReadTimeout"
    archiveOk := true
    inject := some "boom" }

/-- Configuration with no webhook endpoint and archiving disabled. -/
def cfgNoUrl : GmailConfig :=
  { webhookUrl := none, maxEmails := 20, archiveProcessed := false,
    minConfidenceThreshold := 3/10 }

/-- A two-message inbox listing: `m1` processes normally, `m2` raises. -/
def batchItems : List FetchItem :=
  [{ msgId := "m1", fetched := some inquiryCase },
   { msgId := "m2", fetched := some injectCase }]

/-- The batch run over `batchItems` against an empty ledger. -/
def run1 : BatchResult := process_emails cfgNoUrl [] true batchItems

/-- The age field extracted by `ageOracle45`. -/
def age45Field : ExtractedField :=
  { value := "45", confidence := 19/20, source_pattern := "Direct age field",
    position := 4, validation_passed := true }

/-- Three name candidates exercising deduplication (shared normalised value
`ab`) and tie-breaking (equal confidences at positions 2 and 9). -/
def candsOracle : MatchOracle :=
  fun p => if p = namePattern1 then [("Ab", 5), ("ab ", 2), ("Cd", 9)] else []

/-- Candidate fields exercising deduplication and selection: `cand1` and
`cand2` share the normalised value `a`; `cand1` and `cand3` tie on
confidence with `cand1` earlier. -/
def cand1 : ExtractedField :=
  { value := "A", confidence := 9/10, source_pattern := "p1", position := 5 }

/-- Second candidate (same normalised value as `cand1`, lower
confidence). -/
def cand2 : ExtractedField :=
  { value := "a ", confidence := 8/10, source_pattern := "p2", position := 2 }

/-- Third candidate (distinct value, tying `cand1`'s confidence at a later
position). -/
def cand3 : ExtractedField :=
  { value := "B", confidence := 9/10, source_pattern := "p3", position := 9 }

/-! ## Helper lemmas -/

theorem countChar_cons (c : Char) (l : List Char) (d : Char) :
    (List.filter (fun x => x = d) (c :: l)).length
      = (if c = d then 1 else 0) + (List.filter (fun x => x = d) l).length := by
  by_cases h : c = d
  · simp [List.filter_cons, h]
    omega
  · simp [List.filter_cons, h]

theorem pyStartsWith_mark_false (s : String) (h : countChar s '〒' = 0) :
    pyStartsWith s "〒" = false := by
  cases hl : s.toList with
  | nil =>
    have hl' : s.data = [] := hl
    simp [pyStartsWith, String.toList, hl', List.isPrefixOf]
  | cons c rest =>
    have hc : c ≠ '〒' := by
      intro hceq
      rw [countChar, hl, hceq, countChar_cons] at h
      simp at h
    have hl' : s.data = c :: rest := hl
    simp [pyStartsWith, String.toList, hl', List.isPrefixOf, Ne.symm hc]

theorem countChar_digits_dash (l1 l2 : List Char)
    (h1 : ∀ c ∈ l1, c.isDigit = true) (h2 : ∀ c ∈ l2, c.isDigit = true) :
    countChar (String.mk l1 ++ "-" ++ String.mk l2) '〒' = 0 := by
  have hchars : (String.mk l1 ++ "-" ++ String.mk l2).toList = l1 ++ '-' :: l2 := by
    show (String.mk l1).data ++ "-".data ++ (String.mk l2).data = l1 ++ '-' :: l2
    simp
  rw [countChar, hchars]
  rw [List.length_eq_zero]
  rw [List.filter_eq_nil_iff]
  intro a ha
  simp only [List.mem_append, List.mem_cons] at ha
  rcases ha with ha | ha | ha
  · have := h1 a ha
    simp only [decide_eq_true_eq]
    intro hm
    rw [hm] at this
    exact absurd this (by decide)
  · rw [ha]; decide
  · have := h2 a ha
    simp only [decide_eq_true_eq]
    intro hm
    rw [hm] at this
    exact absurd this (by decide)

/-! ## Claim C8 — age validation -/

/-- Claim C8: age validation extracts the digits of the candidate and
accepts exactly the values `0 ≤ age ≤ 120`; the candidate `"150"` is
rejected (leaving the age field absent in the assembled record), and the
candidate `"45"` is accepted and emitted as `"45歳"`. -/
theorem validate_age_spec :
    (∀ v, (validate_age v).1 = true ↔
        ∃ ds, firstDigitRun v = some ds ∧ natOfDigits ds ≤ 120) ∧
    validate_age "150" = (false, "150") ∧
    validate_age "45" = (true, "45") ∧
    (extract_universal_json_data plainEmail ageOracle150).1.customer_age = "" ∧
    (extract_universal_json_data plainEmail ageOracle45).1.customer_age = "45歳" := by
  refine ⟨?_, by decide, by decide, by decide, by decide⟩
  intro v
  unfold validate_age
  cases h : firstDigitRun v with
  | none => simp
  | some ds =>
    by_cases hle : natOfDigits ds ≤ 120
    · simp [hle]
    · simp [hle]

/-! ## Claim C9 — postal-code validation -/

/-- Claim C9: postal-code validation accepts exactly candidates with 7
digits, reformatting them `NNN-NNNN`, so `"1234567"` becomes `"123-4567"`;
a validated value never contains `〒`, and the assembler prepends exactly
one `〒`, so the already-prefixed candidate `"〒123-4567"` is never
double-prefixed in the assembled record. -/
theorem validate_postal_code_spec :
    (∀ v, (validate_postal_code v).1 = true ↔ (digitsOf v).length = 7) ∧
    validate_postal_code "1234567" = (true, "123-4567") ∧
    validate_postal_code "〒123-4567" = (true, "123-4567") ∧
    (∀ v, (validate_postal_code v).1 = true →
        countChar (validate_postal_code v).2 '〒' = 0) ∧
    (∀ f : ExtractedField, countChar f.value '〒' = 0 → pyStrip f.value ≠ "" →
        (map_fields_to_universal_json {} [("postal_code", f)]).customer_postal_code
          = "〒" ++ f.value ∧ countChar ("〒" ++ f.value) '〒' = 1) ∧
    (extract_universal_json_data plainEmail postalOracleP).1.customer_postal_code
      = "〒123-4567" := by
  refine ⟨?_, by decide, by decide, ?_, ?_, by decide⟩
  · intro v
    unfold validate_postal_code
    by_cases h : (digitsOf v).length = 7 <;> simp [h]
  · intro v hv
    unfold validate_postal_code at hv ⊢
    by_cases h : (digitsOf v).length = 7
    · simp only [h, if_pos]
      exact countChar_digits_dash _ _
        (fun c hc => List.of_mem_filter (List.mem_of_mem_take hc))
        (fun c hc => List.of_mem_filter (List.mem_of_mem_drop hc))
    · simp [h] at hv
  · intro f h0 hne
    have hsw := pyStartsWith_mark_false f.value h0
    constructor
    · unfold map_fields_to_universal_json
      simp only [List.foldl_cons, List.foldl_nil]
      rw [if_neg hne]
      rw [if_neg (by decide : ¬("postal_code" = "name"))]
      rw [if_neg (by decide : ¬("postal_code" = "furigana"))]
      rw [if_neg (by decide : ¬("postal_code" = "email"))]
      rw [if_neg (by decide : ¬("postal_code" = "phone"))]
      rw [if_neg (by decide : ¬("postal_code" = "age"))]
      simp [hsw]
    · rw [countChar]
      have : ("〒" ++ f.value).toList = '〒' :: f.value.toList := by
        show "〒".data ++ f.value.data = '〒' :: f.value.data
        rfl
      rw [this, countChar_cons]
      rw [countChar] at h0
      rw [h0]
      simp

/-! ## Evaluation lemmas for the relevance scorer -/

theorem foldl_score_sum {α : Type} (p : α → Bool) (v : α → ℚ) :
    ∀ (l : List α) (init : ℚ),
      List.foldl (fun sc a => if p a then sc + v a else sc) init l
        = init + ((l.filter p).map v).sum := by
  intro l
  induction l with
  | nil => intro init; simp
  | cons a rest ih =>
    intro init
    by_cases h : p a
    · simp only [List.foldl_cons, List.filter_cons, h, if_pos, List.map_cons, List.sum_cons]
      rw [ih]
      ring
    · simp only [List.foldl_cons, List.filter_cons, h, Bool.false_eq_true, if_neg,
        not_false_eq_true]
      rw [ih]

theorem foldl_penalty_sum {α : Type} (p : α → Bool) :
    ∀ (l : List α) (init : ℚ),
      List.foldl (fun sc a => if p a then sc - 10 else sc) init l
        = init - 10 * ((l.filter p).length : ℚ) := by
  intro l
  induction l with
  | nil => intro init; simp
  | cons a rest ih =>
    intro init
    by_cases h : p a
    · simp only [List.foldl_cons, List.filter_cons, h, if_pos, List.length_cons]
      rw [ih]
      push_cast
      ring
    · simp only [List.foldl_cons, List.filter_cons, h, Bool.false_eq_true, if_neg,
        not_false_eq_true]
      rw [ih]

theorem relevance_score_unsub : relevance_score unsubEmail noHitOracle = -10 := by
  decide

theorem relevance_score_inquiry : relevance_score inquiryEmail noHitOracle = 60 := by
  decide

theorem check_unsub_eval : check_data_relevance unsubEmail noHitOracle = (false, -1/10) := by
  decide

theorem check_inquiry_eval : check_data_relevance inquiryEmail noHitOracle = (true, 3/5) := by
  decide

/-! ## Claim C5 — relevance scoring -/

/-- Claim C5, counterexample: on the negative-keyword-only message the
scorer returns confidence `-0.1`, which lies outside `[0, 1]` — the
normalisation `min(1.0, score / 100)` caps only from above. -/
theorem relevance_confidence_below_zero :
    check_data_relevance unsubEmail noHitOracle = (false, -1/10) ∧
    (-1/10 : ℚ) < 0 := by
  exact ⟨check_unsub_eval, by norm_num⟩

/-- Claim C5 as amended: the confidence is at most `1` (it can drop below
`0` when negative keywords dominate), `isRelevant` holds exactly when the
confidence reaches the `0.3` threshold, and the message containing only
`unsubscribe` with no colon-delimited fields is scored not relevant. -/
theorem relevance_bounds_and_threshold :
    (∀ (emailData : EmailData) (regexHit : RegexOracle),
        (check_data_relevance emailData regexHit).2 ≤ 1 ∧
        ((check_data_relevance emailData regexHit).1 = true ↔
          3/10 ≤ (check_data_relevance emailData regexHit).2)) ∧
    check_data_relevance unsubEmail noHitOracle = (false, -1/10) := by
  refine ⟨?_, check_unsub_eval⟩
  intro e r
  constructor
  · show ratMin 1 _ ≤ (1 : ℚ)
    unfold ratMin
    split
    · exact le_refl 1
    · rename_i hx
      exact le_of_lt (lt_of_not_le hx)
  · show decide _ = true ↔ _
    exact decide_eq_true_iff

/-! ## Claim C3 — webhook retry behaviour -/

/-- Claim C3: the `backoff` decorator on `send_to_webhook` retries only
when the decorated function raises a `RequestException`, but the function's
own `except Exception` handler catches every exception (including
`RequestException`) and returns `False`, so for every network behaviour the
decorated call makes exactly one HTTP POST and never retries; in particular
a transient timeout on the first attempt yields `False` after a single
attempt.  (The exception indeed never escapes the pipeline — but no retry
with backoff ever happens, contradicting the claimed 3 attempts.) -/
theorem send_to_webhook_single_attempt :
    (∀ (url : String) (posts : ℕ → PostResult),
        send_to_webhook (some url) posts = send_to_webhook_body (some url) (posts 0) ∧
        (backoff_on_exception 3
            (fun i => Except.ok (send_to_webhook_body (some url) (posts i)))).2 = 1) ∧
    send_to_webhook (some "https://example.com/hook") (fun _ => PostResult.exc "ReadTimeout")
      = (false, 1) := by
  refine ⟨?_, by decide⟩
  intro url posts
  exact ⟨rfl, rfl⟩

/-! ## Claim C4 — webhook success statuses and the no-endpoint path -/

/-- Claim C4, counterexample: status `203` is in the 2xx family, yet
`send_to_webhook` returns `False` — only `200, 201, 202, 204` are accepted
(line 1570). -/
theorem send_to_webhook_not_2xx_family :
    send_to_webhook (some "https://example.com/hook") (fun _ => PostResult.resp 203)
      = (false, 1) ∧
    200 ≤ 203 ∧ 203 ≤ 299 := by
  decide

/-- Claim C4 as amended: the dispatcher returns `True` exactly for statuses
in `{200, 201, 202, 204}`; with no endpoint configured `send_to_webhook`
itself returns `False` without issuing a POST, but `process_single_email`
never calls it in that case and records `webhook_sent = True` (issuing no
POST), and every recorded outcome leaves the message marked done in the
ledger. -/
theorem send_to_webhook_status_semantics :
    (∀ (url : String) (posts : ℕ → PostResult) (s : ℕ), posts 0 = PostResult.resp s →
        ((send_to_webhook (some url) posts).1 = true ↔ s ∈ successStatuses)) ∧
    (∀ posts, send_to_webhook none posts = (false, 0)) ∧
    (∀ cfg c, cfg.webhookUrl = none → (process_single_email cfg c).2 = 0) ∧
    (∀ cfg c, cfg.webhookUrl = none → c.inject = none →
        (check_data_relevance c.email c.regexHit).1 = true →
        ((cfg.minConfidenceThreshold ≤ meanConf (extract_universal_json_data c.email c.matchO).2 ∧
            2 ≤ (extract_universal_json_data c.email c.matchO).2.length) ∨
          key_fields.any (fun k =>
            (extract_universal_json_data c.email c.matchO).2.any (fun p => p.1 = k)) = true) →
        (process_single_email cfg c).1.webhook_sent = true) ∧
    (∀ (db : EmailDatabase) (r : ProcessingResult),
        is_email_processed (mark_email_processed db r) r.email_id = true) := by
  refine ⟨?_, ?_, ?_, ?_, ?_⟩
  · intro url posts s h
    have he : send_to_webhook (some url) posts = send_to_webhook_body (some url) (posts 0) := rfl
    rw [he, h]
    show decide _ = true ↔ _
    exact decide_eq_true_iff
  · intro posts
    rfl
  · intro cfg c h
    unfold process_single_email
    simp only [h]
    cases c.inject with
    | some e => rfl
    | none =>
      repeat' split
      all_goals rfl
  · intro cfg c hurl hinj hrel hmk
    unfold process_single_email
    simp only [hinj, hurl, hrel, Bool.not_true]
    rw [if_neg (by decide)]
    split
    · rename_i hcond
      rcases hcond with ⟨hnm, hnk⟩
      rcases hmk with hm | hk
      · exact absurd hm hnm
      · exact absurd hk hnk
    · rfl
  · intro db r
    unfold is_email_processed mark_email_processed
    rw [List.any_append]
    simp [mkLedgerEntry]

/-- Concrete instance of `send_to_webhook_status_semantics`: status `204`
is accepted; `inquiryEmail` (relevant, with the `name` key field, no
endpoint configured) gets `webhook_sent = True` with zero POSTs issued, and
its recorded outcome marks `m1` done. -/
theorem send_to_webhook_status_semantics_witness :
    (send_to_webhook (some "https://example.com/hook") (fun _ => PostResult.resp 204)).1
        = true ∧
    (process_single_email cfgNoUrl inquiryCase).1.webhook_sent = true ∧
    (process_single_email cfgNoUrl inquiryCase).2 = 0 ∧
    is_email_processed
      (mark_email_processed [] (process_single_email cfgNoUrl inquiryCase).1) "m1" = true := by
  refine ⟨?_, ?_, ?_, ?_⟩
  · exact (send_to_webhook_status_semantics.1 "https://example.com/hook"
      (fun _ => PostResult.resp 204) 204 rfl).mpr (by decide)
  · exact send_to_webhook_status_semantics.2.2.2.1 cfgNoUrl inquiryCase rfl rfl
      (by rw [show inquiryCase.email = inquiryEmail from rfl,
              show inquiryCase.regexHit = noHitOracle from rfl, check_inquiry_eval])
      (Or.inr (by decide))
  · exact send_to_webhook_status_semantics.2.2.1 cfgNoUrl inquiryCase rfl
  · have h := send_to_webhook_status_semantics.2.2.2.2 []
      (process_single_email cfgNoUrl inquiryCase).1
    rw [show (process_single_email cfgNoUrl inquiryCase).1.email_id = "m1" from by decide] at h
    exact h

/-! ## Bounds on confidences (towards C10 and C6) -/

theorem ratMin_le_left (a b : ℚ) : ratMin a b ≤ a := by
  unfold ratMin
  split
  · exact le_refl a
  · rename_i h
    exact le_of_lt (lt_of_not_le h)

theorem le_ratMin {a b c : ℚ} (h1 : c ≤ a) (h2 : c ≤ b) : c ≤ ratMin a b := by
  unfold ratMin
  split
  · exact h1
  · exact h2

theorem ctxFold_ge (ctx : String) (l : List String) :
    ∀ b : ℚ, b ≤ l.foldl (fun b kw => if strContains ctx kw then b + 1/10 else b) b := by
  induction l with
  | nil => intro b; exact le_refl b
  | cons kw rest ih =>
    intro b
    rw [List.foldl_cons]
    by_cases h : strContains ctx kw
    · simp only [h, if_pos]
      calc b ≤ b + 1/10 := by linarith
        _ ≤ _ := ih (b + 1/10)
    · simp only [h, Bool.false_eq_true, if_neg, not_false_eq_true]
      exact ih b

theorem ctx_conf_bounds (text : String) (pos : ℕ) (fn : String) :
    0 ≤ calculate_context_confidence text pos fn ∧
      calculate_context_confidence text pos fn ≤ 1/5 := by
  unfold calculate_context_confidence
  constructor
  · exact le_ratMin (by norm_num) (ctxFold_ge _ _ 0)
  · exact ratMin_le_left _ _

theorem extraction_patterns_conf_bounds (fn : String) :
    ∀ pi ∈ extraction_patterns fn, 0 ≤ pi.confidence ∧ pi.confidence ≤ 99/100 := by
  intro pi h
  unfold extraction_patterns at h
  cases hf : extraction_patterns_table.find? (fun e => e.1 = fn) with
  | none =>
    rw [hf] at h
    cases h
  | some entry =>
    rw [hf] at h
    simp only [Option.map_some', Option.getD_some] at h
    have hmem : entry ∈ extraction_patterns_table := List.mem_of_find?_eq_some hf
    exact (by decide :
        ∀ e ∈ extraction_patterns_table, ∀ q ∈ e.2,
          0 ≤ q.confidence ∧ q.confidence ≤ 99/100) entry hmem pi h

theorem rawCandidates_conf_bounds (text fn : String) (oracle : MatchOracle) :
    ∀ f ∈ rawCandidates text fn oracle,
      0 ≤ f.confidence ∧ f.confidence ≤ 99/100 := by
  intro f hf
  unfold rawCandidates at hf
  rw [List.mem_flatMap] at hf
  obtain ⟨pi, hpi, hf⟩ := hf
  rw [List.mem_filterMap] at hf
  obtain ⟨m, _, hmk⟩ := hf
  dsimp only at hmk
  by_cases hv : pyStrip m.1 = ""
  · rw [if_pos hv] at hmk
    cases hmk
  · rw [if_neg hv] at hmk
    split at hmk
    · injection hmk with hmk
      subst hmk
      constructor
      · exact le_ratMin (by norm_num)
          (add_nonneg (extraction_patterns_conf_bounds fn pi hpi).1
            (ctx_conf_bounds text m.2 fn).1)
      · exact ratMin_le_left _ _
    · cases hmk

/-! ## The deduplication dictionary (towards C7 and C10) -/

theorem lookupD_cons (k₀ : String) (v₀ : ExtractedField)
    (s : List (String × ExtractedField)) (k : String) :
    lookupD ((k₀, v₀) :: s) k = if k₀ = k then some v₀ else lookupD s k := by
  unfold lookupD
  rw [List.find?_cons]
  by_cases h : k₀ = k
  · simp [h]
  · simp [h]

theorem lookupD_none_not_key (s : List (String × ExtractedField)) (k : String)
    (h : lookupD s k = none) : ∀ p ∈ s, p.1 ≠ k := by
  intro p hp
  unfold lookupD at h
  rw [Option.map_eq_none'] at h
  rw [List.find?_eq_none] at h
  have := h p hp
  simpa using this

theorem lookupD_mem {s : List (String × ExtractedField)} {k : String}
    {g : ExtractedField} (h : lookupD s k = some g) : (k, g) ∈ s := by
  unfold lookupD at h
  rw [Option.map_eq_some'] at h
  obtain ⟨p, hp, hpg⟩ := h
  have hmem := List.mem_of_find?_eq_some hp
  have hkey := List.find?_some hp
  simp only [decide_eq_true_eq] at hkey
  have : p = (k, g) := by
    cases p
    simp only [Prod.mk.injEq]
    exact ⟨hkey, hpg⟩
  rw [← this]
  exact hmem

theorem lookupD_unique {s : List (String × ExtractedField)} {k : String}
    {g : ExtractedField} (hnd : (s.map Prod.fst).Nodup)
    (h : lookupD s k = some g) : ∀ f, (k, f) ∈ s → f = g := by
  induction s with
  | nil => intro f hf; cases hf
  | cons p rest ih =>
    intro f hf
    rw [List.map_cons, List.nodup_cons] at hnd
    rw [lookupD_cons p.1 p.2] at h
    rcases List.mem_cons.mp hf with hf | hf
    · have hp1 : p.1 = k := by rw [← hf]
      rw [if_pos hp1] at h
      injection h with h
      rw [← hf] at h
      exact h
    · have hp1 : p.1 ≠ k := by
        intro hk
        exact hnd.1 (hk ▸ (List.mem_map_of_mem Prod.fst hf : (k, f).1 ∈ _))
      rw [if_neg hp1] at h
      exact ih hnd.2 h f hf

theorem pyDictInsert_mem {k : String} {v : ExtractedField}
    {s : List (String × ExtractedField)} :
    ∀ p ∈ pyDictInsert k v s, p = (k, v) ∨ p ∈ s := by
  induction s with
  | nil =>
    intro p hp
    unfold pyDictInsert at hp
    rcases List.mem_cons.mp hp with h | h
    · exact Or.inl h
    · cases h
  | cons q rest ih =>
    intro p hp
    unfold pyDictInsert at hp
    split at hp
    · rename_i hq
      rcases List.mem_cons.mp hp with h | h
      · exact Or.inl (by rw [h, hq])
      · exact Or.inr (List.mem_cons_of_mem q h)
    · rcases List.mem_cons.mp hp with h | h
      · exact Or.inr (h ▸ List.mem_cons_self q rest)
      · rcases ih p h with h' | h'
        · exact Or.inl h'
        · exact Or.inr (List.mem_cons_of_mem q h')

theorem pyDictInsert_mem_self (k : String) (v : ExtractedField)
    (s : List (String × ExtractedField)) : (k, v) ∈ pyDictInsert k v s := by
  induction s with
  | nil => exact List.mem_cons_self _ _
  | cons q rest ih =>
    unfold pyDictInsert
    split
    · rename_i hq
      exact hq ▸ List.mem_cons_self _ _
    · exact List.mem_cons_of_mem q ih

theorem pyDictInsert_mem_of_ne {p : String × ExtractedField} {k : String}
    {v : ExtractedField} {s : List (String × ExtractedField)}
    (hne : p.1 ≠ k) (hp : p ∈ s) : p ∈ pyDictInsert k v s := by
  induction s with
  | nil => cases hp
  | cons q rest ih =>
    unfold pyDictInsert
    rcases List.mem_cons.mp hp with h | h
    · split
      · rename_i hq
        rcases p with ⟨p1, p2⟩
        rcases q with ⟨q1, q2⟩
        injection h with h1 h2
        exact absurd (h1.trans hq) hne
      · exact h ▸ List.mem_cons_self q _
    · split
      · exact List.mem_cons_of_mem _ h
      · exact List.mem_cons_of_mem q (ih h)

theorem keys_pyDictInsert (k : String) (v : ExtractedField)
    (s : List (String × ExtractedField)) :
    (pyDictInsert k v s).map Prod.fst
      = if k ∈ s.map Prod.fst then s.map Prod.fst else s.map Prod.fst ++ [k] := by
  induction s with
  | nil => simp [pyDictInsert]
  | cons q rest ih =>
    unfold pyDictInsert
    split
    · rename_i hq
      simp [hq]
    · rename_i hq
      rw [List.map_cons, List.map_cons, ih]
      by_cases hmem : k ∈ rest.map Prod.fst
      · rw [if_pos hmem, if_pos (List.mem_cons_of_mem _ hmem)]
      · have hknq : k ∉ (q.1 :: rest.map Prod.fst) := by
          intro hk
          rcases List.mem_cons.mp hk with hk | hk
          · exact hq hk.symm
          · exact hmem hk
        rw [if_neg hmem, if_neg hknq, List.cons_append]

theorem keys_pyDictInsert_nodup {k : String} {v : ExtractedField}
    {s : List (String × ExtractedField)} (hnd : (s.map Prod.fst).Nodup) :
    ((pyDictInsert k v s).map Prod.fst).Nodup := by
  rw [keys_pyDictInsert]
  split
  · exact hnd
  · rename_i hmem
    rw [List.nodup_append]
    refine ⟨hnd, List.nodup_singleton k, ?_⟩
    intro a ha hb
    rw [List.mem_singleton] at hb
    exact hmem (hb ▸ ha)

theorem dedupStep_mem (s : List (String × ExtractedField)) (f : ExtractedField) :
    ∀ p ∈ dedupStep s f, p = (normVal f, f) ∨ p ∈ s := by
  intro p hp
  unfold dedupStep at hp
  split at hp
  · exact pyDictInsert_mem p hp
  · split at hp
    · exact pyDictInsert_mem p hp
    · exact Or.inr hp

theorem dedupStep_keys_nodup {s : List (String × ExtractedField)} {f : ExtractedField}
    (hnd : (s.map Prod.fst).Nodup) : ((dedupStep s f).map Prod.fst).Nodup := by
  unfold dedupStep
  split
  · exact keys_pyDictInsert_nodup hnd
  · split
    · exact keys_pyDictInsert_nodup hnd
    · exact hnd

theorem dedupStep_persist {s : List (String × ExtractedField)} {f : ExtractedField}
    (hnd : (s.map Prod.fst).Nodup) :
    ∀ p ∈ s, ∃ q ∈ dedupStep s f, q.1 = p.1 ∧ p.2.confidence ≤ q.2.confidence := by
  intro p hp
  unfold dedupStep
  cases hl : lookupD s (normVal f) with
  | none =>
    refine ⟨p, ?_, rfl, le_refl _⟩
    exact pyDictInsert_mem_of_ne (lookupD_none_not_key s _ hl p hp) hp
  | some g =>
    dsimp only
    by_cases hc : g.confidence < f.confidence
    · rw [if_pos hc]
      by_cases hk : p.1 = normVal f
      · have hpg : p.2 = g := by
          have : (normVal f, p.2) ∈ s := by
            have : p = (normVal f, p.2) := by
              cases p
              simp only [Prod.mk.injEq]
              exact ⟨hk, trivial⟩
            exact this ▸ hp
          exact lookupD_unique hnd hl p.2 this
        refine ⟨(normVal f, f), pyDictInsert_mem_self _ _ _, by rw [hk], ?_⟩
        rw [hpg]
        exact le_of_lt hc
      · exact ⟨p, pyDictInsert_mem_of_ne hk hp, rfl, le_refl _⟩
    · rw [if_neg hc]
      exact ⟨p, hp, rfl, le_refl _⟩

theorem dedupStep_covers {s : List (String × ExtractedField)} (f : ExtractedField) :
    ∃ q ∈ dedupStep s f, q.1 = normVal f ∧ f.confidence ≤ q.2.confidence := by
  unfold dedupStep
  cases hl : lookupD s (normVal f) with
  | none => exact ⟨(normVal f, f), pyDictInsert_mem_self _ _ _, rfl, le_refl _⟩
  | some g =>
    dsimp only
    by_cases hc : g.confidence < f.confidence
    · rw [if_pos hc]
      exact ⟨(normVal f, f), pyDictInsert_mem_self _ _ _, rfl, le_refl _⟩
    · rw [if_neg hc]
      exact ⟨(normVal f, g), lookupD_mem hl, rfl, le_of_not_lt hc⟩

theorem dedupStep_keyed {s : List (String × ExtractedField)} {f : ExtractedField}
    (hk : ∀ p ∈ s, p.1 = normVal p.2) :
    ∀ p ∈ dedupStep s f, p.1 = normVal p.2 := by
  intro p hp
  rcases dedupStep_mem s f p hp with h | h
  · rw [h]
  · exact hk p h

/-- Invariants of the deduplication fold: the keys stay distinct and equal
to the normalised values, every surviving entry comes from the input, every
already-present entry keeps a representative with at least its confidence,
and every processed field is dominated by the entry at its key. -/
theorem dedupFold_spec (l : List ExtractedField) :
    ∀ s : List (String × ExtractedField),
      (s.map Prod.fst).Nodup → (∀ p ∈ s, p.1 = normVal p.2) →
      ((l.foldl dedupStep s).map Prod.fst).Nodup ∧
      (∀ p ∈ l.foldl dedupStep s, p.1 = normVal p.2) ∧
      (∀ p ∈ l.foldl dedupStep s, p ∈ s ∨ p.2 ∈ l) ∧
      (∀ p ∈ s, ∃ q ∈ l.foldl dedupStep s, q.1 = p.1 ∧ p.2.confidence ≤ q.2.confidence) ∧
      (∀ g ∈ l, ∃ q ∈ l.foldl dedupStep s, q.1 = normVal g ∧ g.confidence ≤ q.2.confidence) := by
  induction l with
  | nil =>
    intro s hnd hk
    refine ⟨hnd, hk, ?_, ?_, ?_⟩
    · intro p hp; exact Or.inl hp
    · intro p hp; exact ⟨p, hp, rfl, le_refl _⟩
    · intro g hg; cases hg
  | cons f rest ih =>
    intro s hnd hk
    rw [List.foldl_cons]
    obtain ⟨ihnd, ihk, ihmem, ihpersist, ihcover⟩ :=
      ih (dedupStep s f) (dedupStep_keys_nodup hnd) (dedupStep_keyed hk)
    refine ⟨ihnd, ihk, ?_, ?_, ?_⟩
    · intro p hp
      rcases ihmem p hp with h | h
      · rcases dedupStep_mem s f p h with h' | h'
        · exact Or.inr (h' ▸ List.mem_cons_self f rest)
        · exact Or.inl h'
      · exact Or.inr (List.mem_cons_of_mem f h)
    · intro p hp
      obtain ⟨q₀, hq₀, hq₀k, hq₀c⟩ := dedupStep_persist hnd p hp
      obtain ⟨q, hq, hqk, hqc⟩ := ihpersist q₀ hq₀
      exact ⟨q, hq, hqk.trans hq₀k, hq₀c.trans hqc⟩
    · intro g hg
      rcases List.mem_cons.mp hg with hg | hg
      · subst hg
        obtain ⟨q₀, hq₀, hq₀k, hq₀c⟩ := dedupStep_covers (s := s) g
        obtain ⟨q, hq, hqk, hqc⟩ := ihpersist q₀ hq₀
        exact ⟨q, hq, hqk.trans hq₀k, hq₀c.trans hqc⟩
      · exact ihcover g hg

/-- `deduplicate_fields` keeps only input fields, exactly one per distinct
normalised value, and the kept one dominates in confidence every input
field with that normalised value. -/
theorem deduplicate_fields_spec (l : List ExtractedField) :
    (∀ g ∈ deduplicate_fields l, g ∈ l) ∧
    (∀ f ∈ l, ∃ g ∈ deduplicate_fields l,
        normVal g = normVal f ∧
        (∀ f' ∈ l, normVal f' = normVal f → f'.confidence ≤ g.confidence) ∧
        (∀ g' ∈ deduplicate_fields l, normVal g' = normVal f → g' = g)) := by
  unfold deduplicate_fields
  cases hl : l.isEmpty
  · simp only [Bool.false_eq_true, if_neg, not_false_eq_true]
    obtain ⟨hnd, hkeyed, hmem, _, hcover⟩ :=
      dedupFold_spec l [] (by simp) (by intro p hp; cases hp)
    constructor
    · intro g hg
      rw [List.mem_map] at hg
      obtain ⟨p, hp, hpg⟩ := hg
      rcases hmem p hp with h | h
      · cases h
      · exact hpg ▸ h
    · intro f hf
      obtain ⟨q, hq, hqk, hqc⟩ := hcover f hf
      refine ⟨q.2, List.mem_map_of_mem Prod.snd hq, ?_, ?_, ?_⟩
      · rw [← hkeyed q hq, hqk]
      · intro f' hf' hvf'
        obtain ⟨q', hq', hq'k, hq'c⟩ := hcover f' hf'
        have : q' = q := by
          have h1 : q'.1 = q.1 := by rw [hq'k, hqk, hvf']
          exact List.inj_on_of_nodup_map hnd hq' hq h1
        exact this ▸ hq'c
      · intro g' hg' hvg'
        rw [List.mem_map] at hg'
        obtain ⟨p', hp', hpg'⟩ := hg'
        have h1 : p'.1 = q.1 := by
          rw [hkeyed p' hp', hpg', hvg', hqk]
        have : p' = q := List.inj_on_of_nodup_map hnd hp' hq h1
        rw [← hpg', this]
  · rw [List.isEmpty_iff] at hl
    subst hl
    simp only [if_pos]
    constructor
    · intro g hg; cases hg
    · intro f hf; cases hf

/-! ## Head preservation and Python `max` (towards C7) -/

theorem dedupFold_head (h₀ : ExtractedField) :
    ∀ (rest : List ExtractedField),
      (∀ y ∈ rest, y.confidence ≤ h₀.confidence) →
      ∀ tail, ∃ tail2,
        rest.foldl dedupStep ((normVal h₀, h₀) :: tail) = (normVal h₀, h₀) :: tail2 := by
  intro rest
  induction rest with
  | nil => intro _ tail; exact ⟨tail, rfl⟩
  | cons y ys ih =>
    intro hle tail
    rw [List.foldl_cons]
    have hy : y.confidence ≤ h₀.confidence := hle y (List.mem_cons_self y ys)
    have hle2 : ∀ z ∈ ys, z.confidence ≤ h₀.confidence :=
      fun z hz => hle z (List.mem_cons_of_mem y hz)
    by_cases hk : normVal h₀ = normVal y
    · have hstep : dedupStep ((normVal h₀, h₀) :: tail) y = (normVal h₀, h₀) :: tail := by
        unfold dedupStep
        rw [lookupD_cons, if_pos hk]
        dsimp only
        rw [if_neg (not_lt.mpr hy)]
      rw [hstep]
      exact ih hle2 tail
    · have hstep : ∃ tail2,
          dedupStep ((normVal h₀, h₀) :: tail) y = (normVal h₀, h₀) :: tail2 := by
        unfold dedupStep
        rw [lookupD_cons, if_neg hk]
        cases hl : lookupD tail (normVal y) with
        | none =>
          dsimp only
          unfold pyDictInsert
          rw [if_neg hk]
          exact ⟨_, rfl⟩
        | some g =>
          dsimp only
          split
          · unfold pyDictInsert
            rw [if_neg hk]
            exact ⟨_, rfl⟩
          · exact ⟨tail, rfl⟩
      obtain ⟨tail2, ht⟩ := hstep
      rw [ht]
      exact ih hle2 tail2

theorem dedup_head (h₀ : ExtractedField) (rest : List ExtractedField)
    (hle : ∀ y ∈ rest, y.confidence ≤ h₀.confidence) :
    ∃ t, deduplicate_fields (h₀ :: rest) = h₀ :: t := by
  unfold deduplicate_fields
  rw [if_neg (by simp)]
  rw [List.foldl_cons]
  have hstep0 : dedupStep [] h₀ = [(normVal h₀, h₀)] := rfl
  rw [hstep0]
  obtain ⟨tail2, ht⟩ := dedupFold_head h₀ rest hle []
  rw [ht, List.map_cons]
  exact ⟨tail2.map Prod.snd, rfl⟩

theorem pyMax_foldl_const (x : ExtractedField) (xs : List ExtractedField)
    (h : ∀ y ∈ xs, y.confidence ≤ x.confidence) :
    xs.foldl (fun acc y => if acc.confidence < y.confidence then y else acc) x = x := by
  induction xs with
  | nil => rfl
  | cons y ys ih =>
    rw [List.foldl_cons]
    rw [if_neg (not_lt.mpr (h y (List.mem_cons_self y ys)))]
    exact ih (fun z hz => h z (List.mem_cons_of_mem y hz))

theorem pyMax_foldl_mem (xs : List ExtractedField) :
    ∀ x, xs.foldl (fun acc y => if acc.confidence < y.confidence then y else acc) x
      ∈ x :: xs := by
  induction xs with
  | nil => intro x; exact List.mem_singleton_self x
  | cons y ys ih =>
    intro x
    rw [List.foldl_cons]
    by_cases hc : x.confidence < y.confidence
    · rw [if_pos hc]
      rcases List.mem_cons.mp (ih y) with h | h
      · rw [h]
        exact List.mem_cons_of_mem x (List.mem_cons_self y ys)
      · exact List.mem_cons_of_mem x (List.mem_cons_of_mem y h)
    · rw [if_neg hc]
      rcases List.mem_cons.mp (ih x) with h | h
      · rw [h]
        exact List.mem_cons_self x _
      · exact List.mem_cons_of_mem x (List.mem_cons_of_mem y h)

theorem pyMaxByConf_mem {l : List ExtractedField} {b : ExtractedField}
    (h : pyMaxByConf l = some b) : b ∈ l := by
  cases l with
  | nil => cases h
  | cons x xs =>
    unfold pyMaxByConf at h
    injection h with h
    exact h ▸ pyMax_foldl_mem xs x

theorem sorted_cons_bounds {x : ExtractedField} {xs : List ExtractedField}
    (hs : List.Sorted fieldLe (x :: xs)) :
    ∀ y ∈ x :: xs, y.confidence ≤ x.confidence ∧
      (y.confidence = x.confidence → x.position ≤ y.position) := by
  intro y hy
  rcases List.mem_cons.mp hy with hy | hy
  · subst hy
    exact ⟨le_refl _, fun _ => le_refl _⟩
  · have := List.rel_of_sorted_cons hs y hy
    rcases this with h | ⟨h1, h2⟩
    · exact ⟨le_of_lt h, fun he => absurd (he ▸ h) (lt_irrefl _)⟩
    · exact ⟨le_of_eq h1.symm, fun _ => h2⟩

theorem extract_field_sub (text fn : String) (oracle : MatchOracle) :
    ∀ f ∈ extract_field text fn oracle, f ∈ rawCandidates text fn oracle := by
  intro f hf
  unfold extract_field at hf
  split at hf
  · cases hf
  · have h1 := (deduplicate_fields_spec (pySortFields (rawCandidates text fn oracle))).1 f hf
    exact (List.perm_insertionSort fieldLe _).subset h1

/-! ## Claim C10 — the 0.99 confidence cap -/

/-- Claim C10: every field produced by `extract_field` has confidence at
most `0.99` (`min(0.99, base + bonus)`, line 394), and the context bonus is
always within `[0, 0.2]` (line 474) — for any input text, field name and
regex behaviour. -/
theorem extract_field_confidence_cap (text fn : String) (oracle : MatchOracle) :
    (∀ f ∈ extract_field text fn oracle, f.confidence ≤ 99/100) ∧
    (∀ pos, 0 ≤ calculate_context_confidence text pos fn ∧
        calculate_context_confidence text pos fn ≤ 1/5) := by
  constructor
  · intro f hf
    exact (rawCandidates_conf_bounds text fn oracle f (extract_field_sub text fn oracle f hf)).2
  · intro pos
    exact ctx_conf_bounds text pos fn

/-- Concrete instance of `extract_field_confidence_cap`: the extracted age
field `"45"` (confidence `0.95`) respects the cap. -/
theorem extract_field_confidence_cap_witness :
    age45Field ∈ extract_field "some text" "age" ageOracle45 ∧
    age45Field.confidence ≤ 99/100 := by
  have hmem : age45Field ∈ extract_field "some text" "age" ageOracle45 := by decide
  exact ⟨hmem, (extract_field_confidence_cap "some text" "age" ageOracle45).1 age45Field hmem⟩

/-! ## Claim C7 — deduplication and final-candidate selection -/

/-- Claim C7: `extract_field` deduplicates the validated candidates by
normalised value keeping the highest-confidence instance per distinct
value; selecting the best field (Python `max`, line 894) yields the
highest-confidence candidate with ties broken by earliest position; a field
with no surviving candidate is absent from `extract_field`'s result and
from the assembled record's field map. -/
theorem extract_field_dedup_and_select (text fn : String) (oracle : MatchOracle) :
    (∀ g ∈ extract_field text fn oracle, g ∈ rawCandidates text fn oracle) ∧
    (¬(text = "" ∨ fn = "") →
      ∀ f ∈ rawCandidates text fn oracle,
        ∃ g ∈ extract_field text fn oracle,
          normVal g = normVal f ∧
          (∀ f' ∈ rawCandidates text fn oracle, normVal f' = normVal f →
            f'.confidence ≤ g.confidence) ∧
          (∀ g' ∈ extract_field text fn oracle, normVal g' = normVal f → g' = g)) ∧
    (¬(text = "" ∨ fn = "") → rawCandidates text fn oracle ≠ [] →
      ∃ b, pyMaxByConf (extract_field text fn oracle) = some b ∧
        b ∈ rawCandidates text fn oracle ∧
        (∀ f ∈ rawCandidates text fn oracle, f.confidence ≤ b.confidence) ∧
        (∀ f ∈ rawCandidates text fn oracle, f.confidence = b.confidence →
          b.position ≤ f.position)) ∧
    (rawCandidates text fn oracle = [] → extract_field text fn oracle = []) ∧
    (∀ (emailData : EmailData) (oracle2 : MatchOracle) (fn2 : String),
      extract_field (emailData.subject ++ "\n" ++ emailData.body) fn2 oracle2 = [] →
      ∀ fd, (fn2, fd) ∉ (extract_universal_json_data emailData oracle2).2) := by
  refine ⟨extract_field_sub text fn oracle, ?_, ?_, ?_, ?_⟩
  · intro hne f hf
    have hperm : (pySortFields (rawCandidates text fn oracle)).Perm
        (rawCandidates text fn oracle) := List.perm_insertionSort fieldLe _
    have hf2 : f ∈ pySortFields (rawCandidates text fn oracle) := hperm.mem_iff.mpr hf
    obtain ⟨g, hg, hgv, hgmax, hguniq⟩ :=
      (deduplicate_fields_spec (pySortFields (rawCandidates text fn oracle))).2 f hf2
    have hex : extract_field text fn oracle
        = deduplicate_fields (pySortFields (rawCandidates text fn oracle)) := by
      unfold extract_field
      rw [if_neg hne]
    refine ⟨g, hex ▸ hg, hgv, ?_, ?_⟩
    · intro f' hf' hv'
      exact hgmax f' (hperm.mem_iff.mpr hf') hv'
    · intro g' hg' hv'
      exact hguniq g' (hex ▸ hg') hv'
  · intro hne hraw
    have hperm : (pySortFields (rawCandidates text fn oracle)).Perm
        (rawCandidates text fn oracle) := List.perm_insertionSort fieldLe _
    have hex : extract_field text fn oracle
        = deduplicate_fields (pySortFields (rawCandidates text fn oracle)) := by
      unfold extract_field
      rw [if_neg hne]
    have hsne : pySortFields (rawCandidates text fn oracle) ≠ [] := by
      intro h
      apply hraw
      have h2 := hperm.symm
      rw [h] at h2
      exact h2.eq_nil
    cases hs : pySortFields (rawCandidates text fn oracle) with
    | nil => exact absurd hs hsne
    | cons x xs =>
      have hsorted : List.Sorted fieldLe (x :: xs) := by
        rw [← hs]
        exact List.sorted_insertionSort fieldLe _
      have hbounds := sorted_cons_bounds hsorted
      have hle : ∀ y ∈ xs, y.confidence ≤ x.confidence :=
        fun y hy => (hbounds y (List.mem_cons_of_mem x hy)).1
      obtain ⟨t, ht⟩ := dedup_head x xs hle
      have htmem : ∀ y ∈ t, y.confidence ≤ x.confidence := by
        intro y hy
        have : y ∈ deduplicate_fields (x :: xs) := ht ▸ List.mem_cons_of_mem x hy
        have hyx : y ∈ x :: xs := (deduplicate_fields_spec (x :: xs)).1 y this
        exact (hbounds y hyx).1
      have hmax : pyMaxByConf (extract_field text fn oracle) = some x := by
        rw [hex, hs, ht]
        show some (t.foldl _ x) = some x
        rw [pyMax_foldl_const x t htmem]
      refine ⟨x, hmax, ?_, ?_, ?_⟩
      · exact hperm.subset (hs ▸ List.mem_cons_self x xs)
      · intro f hf
        exact (hbounds f (hs ▸ hperm.mem_iff.mpr hf)).1
      · intro f hf he
        exact (hbounds f (hs ▸ hperm.mem_iff.mpr hf)).2 he
  · intro hraw
    unfold extract_field
    split
    · rfl
    · rw [hraw]
      rfl
  · intro emailData oracle2 fn2 hempty fd hmem
    simp only [extract_universal_json_data] at hmem
    rw [List.mem_filterMap] at hmem
    obtain ⟨fn3, _, hm⟩ := hmem
    cases hp : pyMaxByConf
        (extract_field (emailData.subject ++ "\n" ++ emailData.body) fn3 oracle2) with
    | none => rw [hp] at hm; cases hm
    | some best =>
      rw [hp] at hm
      injection hm with hm
      have hfn : fn3 = fn2 := congrArg Prod.fst hm
      rw [hfn, hempty] at hp
      cases hp

/-- Concrete instance of `extract_field_dedup_and_select`: among three name
candidates (`Ab` at position 5 with confidence 0.9, `ab ` at position 2
with the same normalised value, `Cd` at position 9 tying on confidence),
selection returns a best candidate that dominates every candidate's
confidence with the earliest position among the ties. -/
theorem extract_field_dedup_and_select_witness :
    ¬(("zz zz" : String) = "" ∨ ("name" : String) = "") ∧
    rawCandidates "zz zz" "name" candsOracle ≠ [] ∧
    (∃ b, pyMaxByConf (extract_field "zz zz" "name" candsOracle) = some b ∧
      b ∈ rawCandidates "zz zz" "name" candsOracle ∧
      (∀ f ∈ rawCandidates "zz zz" "name" candsOracle, f.confidence ≤ b.confidence) ∧
      (∀ f ∈ rawCandidates "zz zz" "name" candsOracle, f.confidence = b.confidence →
        b.position ≤ f.position)) := by
  refine ⟨by decide, by decide, ?_⟩
  exact (extract_field_dedup_and_select "zz zz" "name" candsOracle).2.2.1
    (by decide) (by decide)

/-! ## Mean confidence and rounding (towards C6) -/

theorem meanConf_bounds (fields : List (String × ExtractedField))
    (h : ∀ p ∈ fields, 0 ≤ p.2.confidence ∧ p.2.confidence ≤ 1) :
    0 ≤ meanConf fields ∧ meanConf fields ≤ 1 := by
  unfold meanConf
  cases hf : fields.isEmpty
  · simp only [Bool.false_eq_true, if_neg, not_false_eq_true]
    have hne : fields ≠ [] := by
      intro he
      rw [he] at hf
      cases hf
    have hlen : 0 < (fields.length : ℚ) := by
      exact_mod_cast List.length_pos.mpr hne
    constructor
    · apply div_nonneg _ (le_of_lt hlen)
      apply List.sum_nonneg
      intro q hq
      rw [List.mem_map] at hq
      obtain ⟨p, hp, hpq⟩ := hq
      exact hpq ▸ (h p hp).1
    · rw [div_le_one hlen]
      unfold sumConf
      have hle := List.sum_le_card_nsmul (fields.map (fun p => p.2.confidence)) 1 ?_
      · rw [List.length_map] at hle
        simpa [nsmul_eq_mul] using hle
      · intro x hx
        rw [List.mem_map] at hx
        obtain ⟨p, hp, hpx⟩ := hx
        exact hpx ▸ (h p hp).2
  · simp only [if_pos]
    norm_num

theorem roundHalfEven_bounds {q : ℚ} (h0 : 0 ≤ q) (h1 : q ≤ 1000) :
    0 ≤ roundHalfEven q ∧ roundHalfEven q ≤ 1000 := by
  simp only [roundHalfEven]
  have hf0 : (0 : ℤ) ≤ ⌊q⌋ := Int.floor_nonneg.mpr h0
  have hf1 : ⌊q⌋ ≤ 1000 := by
    have h2 : ⌊q⌋ ≤ ⌊(1000 : ℚ)⌋ := Int.floor_le_floor h1
    simpa using h2
  by_cases hlt : q - ⌊q⌋ < 1/2
  · rw [if_pos hlt]
    exact ⟨hf0, hf1⟩
  · rw [if_neg hlt]
    by_cases hgt : 1/2 < q - ⌊q⌋
    · rw [if_pos hgt]
      refine ⟨by omega, ?_⟩
      by_contra hc
      push_neg at hc
      have hq : ⌊q⌋ = 1000 := le_antisymm hf1 (by omega)
      rw [hq] at hgt
      push_cast at hgt
      linarith
    · rw [if_neg hgt]
      have hfrac : q - ⌊q⌋ = 1/2 := le_antisymm (not_lt.mp hgt) (not_lt.mp hlt)
      have hub : ⌊q⌋ + 1 ≤ 1000 := by
        by_contra hc
        push_neg at hc
        have hq : ⌊q⌋ = 1000 := le_antisymm hf1 (by omega)
        rw [hq] at hfrac
        have : q = 1000 + 1/2 := by push_cast at hfrac; linarith
        linarith
      split
      · exact ⟨hf0, hf1⟩
      · exact ⟨by omega, hub⟩

theorem pyRound3_bounds {q : ℚ} (h0 : 0 ≤ q) (h1 : q ≤ 1) :
    0 ≤ pyRound3 q ∧ pyRound3 q ≤ 1 := by
  unfold pyRound3
  obtain ⟨hr0, hr1⟩ := roundHalfEven_bounds (q := q * 1000) (by linarith) (by linarith)
  constructor
  · apply div_nonneg _ (by norm_num)
    exact_mod_cast hr0
  · rw [div_le_one (by norm_num)]
    exact_mod_cast hr1

theorem pyRound3_zero : pyRound3 0 = 0 := by decide

theorem extract_universal_conf_bounds (emailData : EmailData) (oracle : MatchOracle) :
    ∀ p ∈ (extract_universal_json_data emailData oracle).2,
      0 ≤ p.2.confidence ∧ p.2.confidence ≤ 1 := by
  intro p hp
  simp only [extract_universal_json_data] at hp
  rw [List.mem_filterMap] at hp
  obtain ⟨fn, _, hm⟩ := hp
  cases hpm : pyMaxByConf
      (extract_field (emailData.subject ++ "\n" ++ emailData.body) fn oracle) with
  | none => rw [hpm] at hm; cases hm
  | some best =>
    rw [hpm] at hm
    injection hm with hm
    have hbm := pyMaxByConf_mem hpm
    have hb := rawCandidates_conf_bounds _ fn oracle best (extract_field_sub _ fn oracle best hbm)
    rw [← hm]
    exact ⟨hb.1, hb.2.trans (by norm_num)⟩

/-! ## Claim C6 — the stored mean confidence -/

/-- Claim C6, counterexample: for a message with three extracted fields of
confidences `0.9, 0.95, 0.95` the arithmetic mean is `14/15 = 0.9333…`,
but the processing-metadata confidence stored in the record is
`round(mean, 3) = 0.933` (line 908), which differs from the mean. -/
theorem extraction_confidence_not_exact_mean :
    meanConf (extract_universal_json_data plainEmail oracle3F).2 = 14/15 ∧
    (extract_universal_json_data plainEmail oracle3F).1.extraction_confidence = 933/1000 ∧
    (933/1000 : ℚ) ≠ 14/15 := by
  exact ⟨by decide, by decide, by decide⟩

/-- Claim C6 as amended: the processing-metadata confidence equals the
arithmetic mean of the contributing field confidences rounded to three
decimals, always lies within `[0, 1]`, and is exactly `0` when zero fields
were extracted. -/
theorem extraction_confidence_rounded_mean (emailData : EmailData) (oracle : MatchOracle) :
    (extract_universal_json_data emailData oracle).1.extraction_confidence
        = pyRound3 (meanConf (extract_universal_json_data emailData oracle).2) ∧
    0 ≤ (extract_universal_json_data emailData oracle).1.extraction_confidence ∧
    (extract_universal_json_data emailData oracle).1.extraction_confidence ≤ 1 ∧
    ((extract_universal_json_data emailData oracle).2 = [] →
      (extract_universal_json_data emailData oracle).1.extraction_confidence = 0) := by
  obtain ⟨hm0, hm1⟩ := meanConf_bounds _ (extract_universal_conf_bounds emailData oracle)
  obtain ⟨hr0, hr1⟩ := pyRound3_bounds hm0 hm1
  have heq : (extract_universal_json_data emailData oracle).1.extraction_confidence
      = pyRound3 (meanConf (extract_universal_json_data emailData oracle).2) := rfl
  refine ⟨heq, heq ▸ hr0, heq ▸ hr1, ?_⟩
  intro hnil
  rw [heq, hnil]
  exact pyRound3_zero

/-- Concrete instance of `extraction_confidence_rounded_mean`: with no
extraction matches at all, zero fields are extracted and the stored
confidence is exactly `0`. -/
theorem extraction_confidence_rounded_mean_witness :
    (extract_universal_json_data plainEmail emptyOracle).2 = [] ∧
    (extract_universal_json_data plainEmail emptyOracle).1.extraction_confidence = 0 := by
  exact ⟨by decide,
    (extraction_confidence_rounded_mean plainEmail emptyOracle).2.2.2 (by decide)⟩

/-! ## Claim C1 — batch summary after a per-message error -/

/-- Claim C1 is FALSE of the code (code bug).  In the two-message batch
`batchItems`, message `m1` processes normally (webhook skipped as
configured-off, hence counted successful) and message `m2` raises an
unexpected error that `process_single_email` catches and records, exactly
as claimed — the summary the loop then builds (`intended_summary`) would
report 2 processed, 1 webhook success, 1 failure, 1 archived.  But before
returning it, line 1743 calls `self.db.update_daily_stats(...)`, a method
`EmailDatabase` does not define, so every nonempty batch ends in the
`except` at line 1758: the returned summary is zeroed with an `error`
entry, even though both per-message ledger rows were already written. -/
theorem process_emails_zeroed_summary_bug :
    run1.summary = { error := some updateDailyStatsError } ∧
    run1.results = [inquiryResult, injectResult] ∧
    intended_summary run1.results =
      { processed := 2, successful_webhooks := 1, failed_webhooks := 1,
        archived := 1, average_confidence := 99/100 } ∧
    run1.db = [inquiryEntry, injectEntry] ∧
    is_email_processed run1.db "m1" = true ∧
    is_email_processed run1.db "m2" = true := by
  refine ⟨by decide, by decide, by decide, by decide, by decide, by decide⟩

/-! ## Ledger upsert and replay short-circuit (towards C2) -/

theorem mark_filter_self (d : EmailDatabase) (r : ProcessingResult) :
    (mark_email_processed d r).filter (fun e => e.email_id = r.email_id)
      = [mkLedgerEntry r] := by
  rw [mark_email_processed, List.filter_append]
  have h1 : (d.filter (fun e => e.email_id ≠ r.email_id)).filter
      (fun e => e.email_id = r.email_id) = [] := by
    rw [List.filter_eq_nil_iff]
    intro e he
    rw [List.mem_filter] at he
    have hne : e.email_id ≠ r.email_id := by simpa using he.2
    simp [hne]
  have h2 : ([mkLedgerEntry r] : List LedgerEntry).filter
      (fun e => e.email_id = r.email_id) = [mkLedgerEntry r] := by
    simp [mkLedgerEntry]
  rw [h1, h2, List.nil_append]

theorem seqGo_mem (db : EmailDatabase) (maxEmails : ℕ) (items : List FetchItem) :
    ∀ (acc : List EmailCase) (c : EmailCase), c ∈ seqGo db maxEmails items acc →
      c ∈ acc ∨ ∃ it ∈ items, it.fetched = some c ∧
        is_email_processed db it.msgId = false := by
  induction items with
  | nil =>
    intro acc c h
    exact Or.inl h
  | cons item rest ih =>
    intro acc c h
    rw [seqGo] at h
    by_cases hp : is_email_processed db item.msgId = true
    · rw [if_pos hp] at h
      rcases ih acc c h with h1 | ⟨it, hit, hf, hnp⟩
      · exact Or.inl h1
      · exact Or.inr ⟨it, List.mem_cons_of_mem _ hit, hf, hnp⟩
    · rw [if_neg hp] at h
      have hp' : is_email_processed db item.msgId = false := by
        cases hv : is_email_processed db item.msgId
        · rfl
        · exact absurd hv hp
      cases hf : item.fetched with
      | none =>
        rw [hf] at h
        rcases ih acc c h with h1 | ⟨it, hit, hf2, hnp⟩
        · exact Or.inl h1
        · exact Or.inr ⟨it, List.mem_cons_of_mem _ hit, hf2, hnp⟩
      | some c0 =>
        rw [hf] at h
        dsimp only at h
        by_cases hm : maxEmails ≤ (acc ++ [c0]).length
        · rw [if_pos hm] at h
          rcases List.mem_append.mp h with h1 | h1
          · exact Or.inl h1
          · have hc : c = c0 := List.mem_singleton.mp h1
            exact Or.inr ⟨item, List.mem_cons_self _ _, by rw [hf, hc], hp'⟩
        · rw [if_neg hm] at h
          rcases ih (acc ++ [c0]) c h with h1 | ⟨it, hit, hf2, hnp⟩
          · rcases List.mem_append.mp h1 with h2 | h2
            · exact Or.inl h2
            · have hc : c = c0 := List.mem_singleton.mp h2
              exact Or.inr ⟨item, List.mem_cons_self _ _, by rw [hf, hc], hp'⟩
          · exact Or.inr ⟨it, List.mem_cons_of_mem _ hit, hf2, hnp⟩

theorem process_single_email_id (cfg : GmailConfig) (c : EmailCase) :
    (process_single_email cfg c).1.email_id = c.email.id := by
  rw [process_single_email]
  cases c.inject with
  | some e => rfl
  | none =>
    dsimp only
    repeat' split
    all_goals rfl

theorem batchFold_sendCounts (cfg : GmailConfig) (l : List EmailCase) :
    ∀ (d : EmailDatabase) (rs : List ProcessingResult) (sc : List (String × ℕ)),
      (l.foldl (batchStep cfg) (d, rs, sc)).2.2
        = sc ++ l.map (fun c =>
            ((process_single_email cfg c).1.email_id, (process_single_email cfg c).2)) := by
  induction l with
  | nil =>
    intro d rs sc
    simp
  | cons c rest ih =>
    intro d rs sc
    rw [List.foldl_cons, List.map_cons]
    show (rest.foldl (batchStep cfg) (batchStep cfg (d, rs, sc) c)).2.2 = _
    rw [batchStep]
    rw [ih]
    simp

theorem is_email_processed_mark (db : EmailDatabase) (r : ProcessingResult) :
    is_email_processed (mark_email_processed db r) r.email_id = true := by
  rw [is_email_processed, mark_email_processed, List.any_append]
  simp [mkLedgerEntry]

theorem is_email_processed_mark_mono (db : EmailDatabase) (r : ProcessingResult)
    (i : String) (h : is_email_processed db i = true) :
    is_email_processed (mark_email_processed db r) i = true := by
  rw [is_email_processed, List.any_eq_true] at h
  obtain ⟨e, he, hei⟩ := h
  have hei' : e.email_id = i := of_decide_eq_true hei
  by_cases hi : i = r.email_id
  · rw [hi]
    exact is_email_processed_mark db r
  · rw [is_email_processed, List.any_eq_true]
    refine ⟨e, ?_, hei⟩
    rw [mark_email_processed]
    apply List.mem_append_left
    rw [List.mem_filter]
    refine ⟨he, ?_⟩
    simp [hei', hi]

theorem batchFold_preserves (cfg : GmailConfig) (l : List EmailCase) :
    ∀ (acc : EmailDatabase × List ProcessingResult × List (String × ℕ)) (i : String),
      is_email_processed acc.1 i = true →
      is_email_processed (l.foldl (batchStep cfg) acc).1 i = true := by
  induction l with
  | nil =>
    intro acc i h
    exact h
  | cons c0 rest ih =>
    intro acc i h
    rw [List.foldl_cons]
    apply ih
    exact is_email_processed_mark_mono _ _ _ h

theorem batchFold_marks (cfg : GmailConfig) (l : List EmailCase) :
    ∀ (acc : EmailDatabase × List ProcessingResult × List (String × ℕ)) (c : EmailCase),
      c ∈ l → is_email_processed (l.foldl (batchStep cfg) acc).1 c.email.id = true := by
  induction l with
  | nil =>
    intro acc c h
    cases h
  | cons c0 rest ih =>
    intro acc c h
    rw [List.foldl_cons]
    rcases List.mem_cons.mp h with h1 | h1
    · subst h1
      apply batchFold_preserves
      show is_email_processed (mark_email_processed acc.1 (process_single_email cfg c).1)
        c.email.id = true
      have hm := is_email_processed_mark acc.1 (process_single_email cfg c).1
      rw [process_single_email_id] at hm
      exact hm
    · exact ih _ c h1

/-! ## Claim C2 — idempotent ledger writes and no re-delivery -/

/-- Claim C2: `mark_email_processed` upserts by message id — after marking,
the ledger holds exactly one row for that id, built from the latest result
(so reprocessing overwrites rather than appends); given a well-formed inbox
listing (each fetched message carries the listed id), a message id already
recorded in the ledger is skipped by `get_latest_emails`'s
`is_email_processed` check, hence no webhook POST bookkeeping entry for it
can appear in the batch outcome (it is never re-delivered); and every
message the batch does process ends up recorded in the ledger. -/
theorem ledger_upsert_and_no_redelivery
    (cfg : GmailConfig) (db : EmailDatabase) (listOk : Bool)
    (items : List FetchItem) (pid : String)
    (hwf : ∀ it ∈ items, ∀ c, it.fetched = some c → c.email.id = it.msgId)
    (hproc : is_email_processed db pid = true) :
    (∀ (d : EmailDatabase) (r : ProcessingResult),
        (mark_email_processed d r).filter (fun e => e.email_id = r.email_id)
          = [mkLedgerEntry r]) ∧
    (∀ c ∈ get_latest_emails cfg db listOk items, c.email.id ≠ pid) ∧
    (∀ p ∈ (process_emails cfg db listOk items).sendCounts, p.1 ≠ pid) ∧
    (∀ c ∈ get_latest_emails cfg db listOk items,
        is_email_processed (process_emails cfg db listOk items).db c.email.id = true) := by
  have hskip : ∀ c ∈ get_latest_emails cfg db listOk items, c.email.id ≠ pid := by
    intro c hc
    rw [get_latest_emails] at hc
    by_cases hl : (!listOk) = true
    · rw [if_pos hl] at hc
      cases hc
    · rw [if_neg hl] at hc
      rw [_process_emails_sequential] at hc
      rcases seqGo_mem db cfg.maxEmails items [] c hc with h1 | ⟨it, hit, hf, hnp⟩
      · cases h1
      · have hid : c.email.id = it.msgId := hwf it hit c hf
        intro he
        rw [he] at hid
        rw [← hid] at hnp
        rw [hproc] at hnp
        cases hnp
  refine ⟨mark_filter_self, hskip, ?_, ?_⟩
  · intro p hp
    rw [process_emails] at hp
    by_cases he : (get_latest_emails cfg db listOk items).isEmpty = true
    · rw [if_pos he] at hp
      cases hp
    · rw [if_neg he] at hp
      dsimp only at hp
      rw [batchFold_sendCounts, List.nil_append, List.mem_map] at hp
      obtain ⟨c, hc, hpc⟩ := hp
      rw [← hpc]
      dsimp only
      rw [process_single_email_id]
      exact hskip c hc
  · intro c hc
    rw [process_emails]
    by_cases he : (get_latest_emails cfg db listOk items).isEmpty = true
    · rw [List.isEmpty_iff] at he
      rw [he] at hc
      cases hc
    · rw [if_neg he]
      exact batchFold_marks cfg _ _ c hc

/-- Concrete instance of `ledger_upsert_and_no_redelivery`: against a
ledger already holding `m1`'s row, the same two-message listing yields no
webhook bookkeeping entry for `m1` — it is skipped, not re-delivered. -/
theorem ledger_upsert_and_no_redelivery_witness :
    (∀ it ∈ batchItems, ∀ c, it.fetched = some c → c.email.id = it.msgId) ∧
    is_email_processed [inquiryEntry] "m1" = true ∧
    (∀ p ∈ (process_emails cfgNoUrl [inquiryEntry] true batchItems).sendCounts,
      p.1 ≠ "m1") := by
  have hwf : ∀ it ∈ batchItems, ∀ c, it.fetched = some c → c.email.id = it.msgId := by
    intro it hit c hc
    rcases List.mem_cons.mp hit with h | h
    · subst h
      cases hc
      rfl
    · rcases List.mem_cons.mp h with h2 | h2
      · subst h2
        cases hc
        rfl
      · cases h2
  exact ⟨hwf, by decide,
    (ledger_upsert_and_no_redelivery cfgNoUrl [inquiryEntry] true batchItems "m1"
      hwf (by decide)).2.2.1⟩

end EmailProc
